import Mathlib

/-!
# Signing providers

A shallow embedding of `src/script/signingprovider.cpp` (Bitcoin ABC) and the
properties of it that the specification states.

Conventions of the embedding.

* A C++ lookup `bool f(const K &id, V &out)` becomes a function `K → Option V`:
  `some v` stands for `return true` with `out = v`, `none` for `return false`.
* `std::map<K, V>` is `StdMap K V`, `std::set<T>` is `StdSet T`; each is a list
  of entries together with the member functions the source calls (`find`,
  `count`, range `insert`, `operator[]` assignment, `erase`, `empty`).
* The recursive mutex `cs_KeyStore` is not modelled: the embedding is
  sequential, every member function runs to completion on its own.
* An `assert` that fails aborts the process; a member function that reaches one
  returns an `Option`, `none` standing for the abort. `FillableSigningProvider::GetPubKey`
  is both a lookup and such a function (it calls `CKey::GetPubKey`, which asserts that
  the key is valid): it returns `none` for the abort, `some (some pubkey)` for
  `return true` and `some none` for `return false`.
* Hashing (`CPubKey::GetID`, `CScriptID(script)`), the elliptic-curve check
  `CPubKey::IsFullyValid`, the derivation inside `CKey::GetPubKey` and the constant
  `MAX_SCRIPT_ELEMENT_SIZE` live in other files; they are the fields of
  `Externals`, and every statement holds for all values of them.
-/

set_option autoImplicit false

/-! ## Containers -/

/-- A `std::map<K, V>`: its entries, one per key. The list keeps them in the order of
insertion; none of the member functions below depends on the order. -/
structure StdMap (K V : Type) where
  entries : List (K × V)
deriving DecidableEq

/-- A `std::set<T>`: its elements. -/
structure StdSet (T : Type) where
  elems : List T
deriving DecidableEq

namespace StdMap

variable {K V : Type} [DecidableEq K]

/-- The value of the first entry of a list of entries whose key is `k`. -/
def findIn (k : K) : List (K × V) → Option V
  | [] => none
  | e :: rest => if e.1 = k then some e.2 else findIn k rest

/-- Replace the value stored under `k`, or add the entry `(k, v)` when there is none. -/
def assignIn (k : K) (v : V) : List (K × V) → List (K × V)
  | [] => [(k, v)]
  | e :: rest => if e.1 = k then (k, v) :: rest else e :: assignIn k v rest

/-- The empty map (a default-constructed `std::map`). -/
def empty : StdMap K V := ⟨[]⟩

/-- The call `map.find(key)`: `some` of the mapped value (`it->second`), or `none` for
`map.end()`. -/
def find (m : StdMap K V) (k : K) : Option V := findIn k m.entries

/-- The call `map.count(key)`: 1 when an entry has the key, else 0. -/
def count (m : StdMap K V) (k : K) : Nat := if (m.find k).isSome then 1 else 0

/-- The call `map.insert(value)`: adds the entry unless its key is already present, in
which case the map is left as it is. -/
def insert (m : StdMap K V) (e : K × V) : StdMap K V :=
  if (m.find e.1).isSome then m else ⟨m.entries ++ [e]⟩

/-- The call `map.insert(first, last)`: `insert` of each element of the range in turn. -/
def insertRange (m : StdMap K V) (range : List (K × V)) : StdMap K V :=
  range.foldl insert m

/-- The statement `map[key] = value`. -/
def assign (m : StdMap K V) (k : K) (v : V) : StdMap K V := ⟨assignIn k v m.entries⟩

/-- The call `map.erase(key)`. -/
def erase (m : StdMap K V) (k : K) : StdMap K V :=
  ⟨m.entries.filter (fun e => decide (e.1 ≠ k))⟩

end StdMap

namespace StdSet

variable {T : Type} [DecidableEq T]

/-- The empty set (a default-constructed `std::set`). -/
def emptySet : StdSet T := ⟨[]⟩

/-- The call `set.count(x)`. -/
def count (s : StdSet T) (x : T) : Nat := if x ∈ s.elems then 1 else 0

/-- The call `set.insert(x)`. -/
def insert (s : StdSet T) (x : T) : StdSet T :=
  if x ∈ s.elems then s else ⟨s.elems ++ [x]⟩

/-- The call `set.erase(x)`. -/
def erase (s : StdSet T) (x : T) : StdSet T :=
  ⟨s.elems.filter (fun y => decide (y ≠ x))⟩

/-- The call `set.empty()`. -/
def empty (s : StdSet T) : Bool := s.elems.isEmpty

end StdSet

/-! ## Value types -/

/-- A `uint160`, by its numeric value. -/
abbrev uint160 := Nat

/-- A key identifier (`CKeyID`, a `uint160`). -/
structure CKeyID where
  data : uint160
deriving DecidableEq

/-- A script identifier (`CScriptID`, a `uint160`). -/
structure CScriptID where
  data : uint160
deriving DecidableEq

/-- A script (`CScript`): a vector of bytes. -/
abbrev CScript := List Nat

/-- Modelled from the spec: the type `CPubKey` (pubkey.h is not among the sources; the
spec's "public key bytes"). A public key is the bytes of its serialisation,
`[begin(), end())`; the invalid key, whose size is 0, has none. -/
structure CPubKey where
  vch : List Nat
deriving DecidableEq

/-- Modelled from the spec: the type `CKey` (key.h is not among the sources; the spec's
"secret key bytes"): the validity and compression flags and the key data. -/
structure CKey where
  fValid : Bool
  fCompressed : Bool
  keydata : List Nat
deriving DecidableEq

/-- Modelled from the spec: the type `KeyOriginInfo` (script/keyorigin.h is not among the
sources; the spec's "master fingerprint + path"). -/
structure KeyOriginInfo where
  fingerprint : List Nat
  path : List Nat
deriving DecidableEq

/-- The functions and the constant that `signingprovider.cpp` takes from other files. -/
structure Externals where
  /-- The member function `CPubKey::GetID`. -/
  GetID : CPubKey → CKeyID
  /-- The member function `CPubKey::IsFullyValid`. -/
  IsFullyValid : CPubKey → Bool
  /-- The public key that `CKey::GetPubKey` computes from the data of a valid key. -/
  CKeyGetPubKey : CKey → CPubKey
  /-- The constructor `CScriptID(const CScript &)`. -/
  ScriptID : CScript → CScriptID
  /-- The constant `MAX_SCRIPT_ELEMENT_SIZE`. -/
  MAX_SCRIPT_ELEMENT_SIZE : Nat

/-- Modelled from the spec: the member function `CKey::GetPubKey()` (key.h and key.cpp are
not among the sources; the spec takes keys from "external cryptographic libraries"). It
starts with `assert(fValid)`: `none` stands for the abort on a key that is not valid, and
for a valid key the result is the public key derived from it. -/
def CKey.GetPubKey (ext : Externals) (key : CKey) : Option CPubKey :=
  if key.fValid then some (ext.CKeyGetPubKey key) else none

/-! ## The capability interface -/

/-- The four virtual lookups of `SigningProvider`. -/
structure SigningProvider where
  GetCScript : CScriptID → Option CScript
  GetPubKey : CKeyID → Option CPubKey
  GetKey : CKeyID → Option CKey
  GetKeyOrigin : CKeyID → Option KeyOriginInfo

/-- The provider `DUMMY_SIGNING_PROVIDER`, an object of the base class: each of its lookups
returns false. -/
def DUMMY_SIGNING_PROVIDER : SigningProvider where
  GetCScript := fun _ => none
  GetPubKey := fun _ => none
  GetKey := fun _ => none
  GetKeyOrigin := fun _ => none

/-- The function template `LookupHelper(map, key, value)`. -/
def LookupHelper {K V : Type} [DecidableEq K] (map : StdMap K V) (key : K) : Option V :=
  match map.find key with
  | some second => some second
  | none => none

/-! ## HidingSigningProvider -/

/-- The members of `HidingSigningProvider`. -/
structure HidingSigningProvider where
  m_hide_secret : Bool
  m_hide_origin : Bool
  m_provider : SigningProvider

namespace HidingSigningProvider

/-- The member function `HidingSigningProvider::GetCScript`. -/
def GetCScript (self : HidingSigningProvider) (scriptid : CScriptID) : Option CScript :=
  self.m_provider.GetCScript scriptid

/-- The member function `HidingSigningProvider::GetPubKey`. -/
def GetPubKey (self : HidingSigningProvider) (keyid : CKeyID) : Option CPubKey :=
  self.m_provider.GetPubKey keyid

/-- The member function `HidingSigningProvider::GetKey`. -/
def GetKey (self : HidingSigningProvider) (keyid : CKeyID) : Option CKey :=
  if self.m_hide_secret then none else self.m_provider.GetKey keyid

/-- The member function `HidingSigningProvider::GetKeyOrigin`. -/
def GetKeyOrigin (self : HidingSigningProvider) (keyid : CKeyID) : Option KeyOriginInfo :=
  if self.m_hide_origin then none else self.m_provider.GetKeyOrigin keyid

end HidingSigningProvider

/-! ## FlatSigningProvider -/

/-- The members of `FlatSigningProvider`. -/
structure FlatSigningProvider where
  scripts : StdMap CScriptID CScript
  pubkeys : StdMap CKeyID CPubKey
  origins : StdMap CKeyID (CPubKey × KeyOriginInfo)
  keys : StdMap CKeyID CKey
deriving DecidableEq

namespace FlatSigningProvider

/-- The member function `FlatSigningProvider::GetCScript`. -/
def GetCScript (self : FlatSigningProvider) (scriptid : CScriptID) : Option CScript :=
  LookupHelper self.scripts scriptid

/-- The member function `FlatSigningProvider::GetPubKey`. -/
def GetPubKey (self : FlatSigningProvider) (keyid : CKeyID) : Option CPubKey :=
  LookupHelper self.pubkeys keyid

/-- The member function `FlatSigningProvider::GetKeyOrigin`. -/
def GetKeyOrigin (self : FlatSigningProvider) (keyid : CKeyID) : Option KeyOriginInfo :=
  match LookupHelper self.origins keyid with
  | some out => some out.2
  | none => none

/-- The member function `FlatSigningProvider::GetKey`. -/
def GetKey (self : FlatSigningProvider) (keyid : CKeyID) : Option CKey :=
  LookupHelper self.keys keyid

/-- A flat provider seen through the capability interface. -/
def toSigningProvider (self : FlatSigningProvider) : SigningProvider where
  GetCScript := self.GetCScript
  GetPubKey := self.GetPubKey
  GetKey := self.GetKey
  GetKeyOrigin := self.GetKeyOrigin

end FlatSigningProvider

/-- The function `Merge(a, b)`. -/
def Merge (a b : FlatSigningProvider) : FlatSigningProvider where
  scripts := a.scripts.insertRange b.scripts.entries
  pubkeys := a.pubkeys.insertRange b.pubkeys.entries
  keys := a.keys.insertRange b.keys.entries
  origins := a.origins.insertRange b.origins.entries

/-! ## Scripts and public keys: what `ExtractPubKey` takes from other files -/

/-- The opcode `OP_PUSHDATA1`. -/
def OP_PUSHDATA1 : Nat := 0x4c

/-- The opcode `OP_PUSHDATA2`. -/
def OP_PUSHDATA2 : Nat := 0x4d

/-- The opcode `OP_PUSHDATA4`. -/
def OP_PUSHDATA4 : Nat := 0x4e

/-- The opcode `OP_CHECKSIG`. -/
def OP_CHECKSIG : Nat := 0xac

/-- The little-endian number held in the `n` bytes of `script` that start at index `pc`
(`ReadLE16` for `n = 2`, `ReadLE32` for `n = 4`). -/
def ReadLE (script : CScript) (pc : Nat) : Nat → Nat
  | 0 => 0
  | n + 1 => script.getD pc 0 + 256 * ReadLE script (pc + 1) n

/-- Modelled from the spec: the member function `CScript::GetOp(pc, opcode, vch)`
(script/script.h and script.cpp are not among the sources; the spec's "script-opcode
iterator"). The iterator `pc` is an index into the script. The result is `none` for
`return false`: `pc` is at the end of the script, or the push that starts at `pc` is cut
short by the end of the script. Otherwise it is `some (pc, opcode, vch)`: the index after
the operation, its opcode, and the data it pushes (empty for an opcode above
`OP_PUSHDATA4`). An opcode below `OP_PUSHDATA1` pushes that many bytes; `OP_PUSHDATA1`,
`OP_PUSHDATA2` and `OP_PUSHDATA4` read the number of bytes from the next 1, 2 and 4 bytes. -/
def GetOp (script : CScript) (pc : Nat) : Option (Nat × Nat × List Nat) :=
  if pc ≥ script.length then none
  else
    let opcode := script.getD pc 0
    let pc := pc + 1
    if opcode ≤ OP_PUSHDATA4 then
      let sized : Option (Nat × Nat) :=
        if opcode < OP_PUSHDATA1 then some (opcode, pc)
        else if opcode = OP_PUSHDATA1 then
          if script.length - pc < 1 then none else some (ReadLE script pc 1, pc + 1)
        else if opcode = OP_PUSHDATA2 then
          if script.length - pc < 2 then none else some (ReadLE script pc 2, pc + 2)
        else
          if script.length - pc < 4 then none else some (ReadLE script pc 4, pc + 4)
      match sized with
      | none => none
      | some (nSize, pc) =>
        if script.length - pc < nSize then none
        else some (pc + nSize, opcode, (script.drop pc).take nSize)
    else some (pc, opcode, [])

/-- Modelled from the spec: the operator `CScript::operator<<(const std::vector<uint8_t> &)`
(script/script.h is not among the sources; the spec's "push"): appends the push of the
bytes `b` to a script. -/
def CScript.pushData (script : CScript) (b : List Nat) : CScript :=
  if b.length < OP_PUSHDATA1 then script ++ [b.length] ++ b
  else if b.length ≤ 0xff then script ++ [OP_PUSHDATA1, b.length] ++ b
  else if b.length ≤ 0xffff then
    script ++ [OP_PUSHDATA2, b.length % 256, b.length / 256 % 256] ++ b
  else
    script ++ [OP_PUSHDATA4, b.length % 256, b.length / 256 % 256,
      b.length / 65536 % 256, b.length / 16777216 % 256] ++ b

/-- Modelled from the spec: the operator `CScript::operator<<(opcodetype)` (script/script.h
is not among the sources): appends one opcode byte to a script. -/
def CScript.pushOpcode (script : CScript) (opcode : Nat) : CScript :=
  script ++ [opcode]

namespace CPubKey

/-- Modelled from the spec: the function `CPubKey::GetLen(chHeader)` (pubkey.h is not among
the sources; the spec's "validly-sized public key"): the length of a serialised key that
starts with the byte `chHeader`, 33 for a compressed key (2 or 3), 65 for an uncompressed
or hybrid one (4, 6 or 7), 0 for any other byte. -/
def GetLen (chHeader : Nat) : Nat :=
  if chHeader = 2 ∨ chHeader = 3 then 33
  else if chHeader = 4 ∨ chHeader = 6 ∨ chHeader = 7 then 65
  else 0

/-- Modelled from the spec: the function `CPubKey::ValidSize(vch)` (pubkey.h is not among
the sources; the spec's "validly-sized public key"): `vch` is not empty and has the length
its first byte announces. -/
def ValidSize (vch : List Nat) : Bool :=
  decide (vch.length > 0) && decide (GetLen (vch.headD 0) = vch.length)

/-- The invalid key (a default-constructed `CPubKey`). -/
def invalid : CPubKey := ⟨[]⟩

/-- Modelled from the spec: the constructor `CPubKey(const std::vector<uint8_t> &)`
(pubkey.h is not among the sources): the key holding the bytes `vch` when their number is
the one their first byte announces, the invalid key otherwise. -/
def ofVch (vch : List Nat) : CPubKey :=
  let len := match vch with
    | [] => 0
    | chHeader :: _ => GetLen chHeader
  if len ≠ 0 ∧ len = vch.length then ⟨vch⟩ else invalid

end CPubKey

/-- The function `ExtractPubKey(dest, pubKeyOut)`: `some pubKeyOut` for `return true`. -/
def ExtractPubKey (ext : Externals) (dest : CScript) : Option CPubKey :=
  match GetOp dest 0 with
  | none => none
  | some (pc, _, vch) =>
    if !CPubKey.ValidSize vch then none
    else
      let pubKeyOut := CPubKey.ofVch vch
      if !ext.IsFullyValid pubKeyOut then none
      else
        match GetOp dest pc with
        | none => none
        | some (pc, opcode, _) =>
          if opcode ≠ OP_CHECKSIG then none
          else if (GetOp dest pc).isSome then none
          else some pubKeyOut

/-! ## FillableSigningProvider -/

/-- The members of `FillableSigningProvider` (all guarded by `cs_KeyStore`). -/
structure FillableSigningProvider where
  mapKeys : StdMap CKeyID CKey
  mapWatchKeys : StdMap CKeyID CPubKey
  mapScripts : StdMap CScriptID CScript
  setWatchOnly : StdSet CScript
deriving DecidableEq

namespace FillableSigningProvider

/-- A provider that holds nothing (a default-constructed `FillableSigningProvider`). -/
def init : FillableSigningProvider where
  mapKeys := StdMap.empty
  mapWatchKeys := StdMap.empty
  mapScripts := StdMap.empty
  setWatchOnly := StdSet.emptySet

/-- The member function `FillableSigningProvider::HaveKey`. -/
def HaveKey (self : FillableSigningProvider) (address : CKeyID) : Bool :=
  decide (self.mapKeys.count address > 0)

/-- The member function `FillableSigningProvider::GetKeys`, the set it returns. -/
def GetKeys (self : FillableSigningProvider) : StdSet CKeyID :=
  self.mapKeys.entries.foldl (fun set_address mi => set_address.insert mi.1) StdSet.emptySet

/-- The member function `FillableSigningProvider::GetKey`. -/
def GetKey (self : FillableSigningProvider) (address : CKeyID) : Option CKey :=
  match self.mapKeys.find address with
  | some second => some second
  | none => none

/-- The member function `FillableSigningProvider::ImplicitlyLearnRelatedKeyScripts`:
`none` when its assertion fails, else the state it leaves, which is the one it found. -/
def ImplicitlyLearnRelatedKeyScripts (ext : Externals) (self : FillableSigningProvider)
    (pubkey : CPubKey) : Option FillableSigningProvider :=
  let key_id := ext.GetID pubkey
  if self.HaveKey key_id || decide (self.mapWatchKeys.count key_id ≠ 0) then some self
  else none

/-- The member function `FillableSigningProvider::GetPubKey`: `none` when the assertion of
`key.GetPubKey()` fails, `some (some vchPubKeyOut)` for `return true`, `some none` for
`return false`. -/
def GetPubKey (ext : Externals) (self : FillableSigningProvider) (address : CKeyID) :
    Option (Option CPubKey) :=
  match self.GetKey address with
  | none =>
    match self.mapWatchKeys.find address with
    | some second => some (some second)
    | none => some none
  | some key =>
    match key.GetPubKey ext with
    | none => none
    | some vchPubKeyOut => some (some vchPubKeyOut)

/-- The member function `FillableSigningProvider::AddKeyPubKey`: the value it returns and
the state it leaves, or `none` when the assertion of the hook fails. -/
def AddKeyPubKey (ext : Externals) (self : FillableSigningProvider) (key : CKey)
    (pubkey : CPubKey) : Option (Bool × FillableSigningProvider) :=
  let self := { self with mapKeys := self.mapKeys.assign (ext.GetID pubkey) key }
  match ImplicitlyLearnRelatedKeyScripts ext self pubkey with
  | none => none
  | some self => some (true, self)

/-- The member function `FillableSigningProvider::AddCScript`: the value it returns and the
state it leaves (`error(...)` logs its message and returns false). -/
def AddCScript (ext : Externals) (self : FillableSigningProvider) (redeemScript : CScript) :
    Bool × FillableSigningProvider :=
  if redeemScript.length > ext.MAX_SCRIPT_ELEMENT_SIZE then (false, self)
  else
    (true, { self with
      mapScripts := self.mapScripts.assign (ext.ScriptID redeemScript) redeemScript })

/-- The member function `FillableSigningProvider::HaveCScript`. -/
def HaveCScript (self : FillableSigningProvider) (hash : CScriptID) : Bool :=
  decide (self.mapScripts.count hash > 0)

/-- The member function `FillableSigningProvider::GetCScripts`, the set it returns. -/
def GetCScripts (self : FillableSigningProvider) : StdSet CScriptID :=
  self.mapScripts.entries.foldl (fun set_script mi => set_script.insert mi.1) StdSet.emptySet

/-- The member function `FillableSigningProvider::GetCScript`. -/
def GetCScript (self : FillableSigningProvider) (hash : CScriptID) : Option CScript :=
  match self.mapScripts.find hash with
  | some second => some second
  | none => none

/-- The member function `FillableSigningProvider::AddWatchOnly`: the value it returns and
the state it leaves, or `none` when the assertion of the hook fails. -/
def AddWatchOnly (ext : Externals) (self : FillableSigningProvider) (dest : CScript) :
    Option (Bool × FillableSigningProvider) :=
  let self := { self with setWatchOnly := self.setWatchOnly.insert dest }
  match ExtractPubKey ext dest with
  | some pubKey =>
    let self := { self with
      mapWatchKeys := self.mapWatchKeys.assign (ext.GetID pubKey) pubKey }
    match ImplicitlyLearnRelatedKeyScripts ext self pubKey with
    | none => none
    | some self => some (true, self)
  | none => some (true, self)

/-- The member function `FillableSigningProvider::RemoveWatchOnly`: the value it returns
and the state it leaves. -/
def RemoveWatchOnly (ext : Externals) (self : FillableSigningProvider) (dest : CScript) :
    Bool × FillableSigningProvider :=
  let self := { self with setWatchOnly := self.setWatchOnly.erase dest }
  match ExtractPubKey ext dest with
  | some pubKey =>
    (true, { self with mapWatchKeys := self.mapWatchKeys.erase (ext.GetID pubKey) })
  | none => (true, self)

/-- The member function `FillableSigningProvider::HaveWatchOnly(const CScript &)`. -/
def HaveWatchOnly (self : FillableSigningProvider) (dest : CScript) : Bool :=
  decide (self.setWatchOnly.count dest > 0)

/-- The member function `FillableSigningProvider::HaveWatchOnly()`. -/
def HaveWatchOnlyAny (self : FillableSigningProvider) : Bool :=
  !self.setWatchOnly.empty

end FillableSigningProvider

/-! ## Destinations -/

/-- Modelled from the spec: the type `CTxDestination` (script/standard.h is not among the
sources; the spec's "tagged variant over address kinds"): no destination, the hash of a
public key, or the hash of a script. -/
inductive CTxDestination where
  | CNoDestination
  | PKHash (hash : uint160)
  | ScriptHash (hash : uint160)
deriving DecidableEq

/-- The function `GetKeyForDestination(store, dest)`; `CKeyID()` is the identifier 0. -/
def GetKeyForDestination (_store : SigningProvider) (dest : CTxDestination) : CKeyID :=
  match dest with
  | CTxDestination.PKHash id => CKeyID.mk id
  | _ => CKeyID.mk 0

/-! ## Sequences of calls, and the predicates the statements use -/

/-- A call of one of the four member functions of `FillableSigningProvider` that change
it, with its arguments. -/
inductive FillableOp where
  | AddKeyPubKey (key : CKey) (pubkey : CPubKey)
  | AddCScript (redeemScript : CScript)
  | AddWatchOnly (dest : CScript)
  | RemoveWatchOnly (dest : CScript)
deriving DecidableEq

namespace FillableSigningProvider

/-- The state that one call leaves; `none` when the call aborts on the assertion. -/
def call (ext : Externals) (self : FillableSigningProvider) :
    FillableOp → Option FillableSigningProvider
  | FillableOp.AddKeyPubKey key pubkey =>
    match self.AddKeyPubKey ext key pubkey with
    | some result => some result.2
    | none => none
  | FillableOp.AddCScript redeemScript => some (self.AddCScript ext redeemScript).2
  | FillableOp.AddWatchOnly dest =>
    match self.AddWatchOnly ext dest with
    | some result => some result.2
    | none => none
  | FillableOp.RemoveWatchOnly dest => some (self.RemoveWatchOnly ext dest).2

/-- The state that a sequence of calls leaves, made one after the other; `none` when one of
them aborts. -/
def calls (ext : Externals) (self : FillableSigningProvider) :
    List FillableOp → Option FillableSigningProvider
  | [] => some self
  | op :: rest =>
    match self.call ext op with
    | some next => next.calls ext rest
    | none => none

/-- Every watched script from which `ExtractPubKey` extracts a key `P` has `P` stored under
the identifier of `P` in `mapWatchKeys`. -/
def WatchedKeysStored (ext : Externals) (self : FillableSigningProvider) : Prop :=
  ∀ dest ∈ self.setWatchOnly.elems, ∀ P : CPubKey, ExtractPubKey ext dest = some P →
    self.mapWatchKeys.find (ext.GetID P) = some P

/-- Every entry of `mapWatchKeys` is the key that `ExtractPubKey` extracts from some
watched script, stored under the identifier of that key. -/
def WatchKeysFromWatched (ext : Externals) (self : FillableSigningProvider) : Prop :=
  ∀ (id : CKeyID) (P : CPubKey), self.mapWatchKeys.find id = some P →
    ∃ dest ∈ self.setWatchOnly.elems, ExtractPubKey ext dest = some P ∧ ext.GetID P = id

end FillableSigningProvider

/-- The scripts that the watch-only calls of a sequence are made with. -/
def watchScripts : List FillableOp → List CScript
  | [] => []
  | FillableOp.AddWatchOnly dest :: rest => dest :: watchScripts rest
  | FillableOp.RemoveWatchOnly dest :: rest => dest :: watchScripts rest
  | _ :: rest => watchScripts rest

/-- No two different scripts of the list yield keys with the same identifier. -/
def OneScriptPerKey (ext : Externals) (scripts : List CScript) : Prop :=
  ∀ d1 ∈ scripts, ∀ d2 ∈ scripts, ∀ P1 P2 : CPubKey,
    ExtractPubKey ext d1 = some P1 → ExtractPubKey ext d2 = some P2 →
      ext.GetID P1 = ext.GetID P2 → d1 = d2

/-- The keys of a map are pairwise different, as they are in every `std::map`. -/
def StdMap.UniqueKeys {K V : Type} (m : StdMap K V) : Prop :=
  (m.entries.map Prod.fst).Nodup

namespace FlatSigningProvider

/-- A flat provider that holds nothing (a default-constructed `FlatSigningProvider`). -/
def init : FlatSigningProvider where
  scripts := StdMap.empty
  pubkeys := StdMap.empty
  origins := StdMap.empty
  keys := StdMap.empty

/-- Each of the four maps has pairwise different keys. -/
def UniqueKeys (self : FlatSigningProvider) : Prop :=
  self.scripts.UniqueKeys ∧ self.pubkeys.UniqueKeys ∧ self.origins.UniqueKeys ∧
    self.keys.UniqueKeys

end FlatSigningProvider

/-! ## Concrete data for the examples -/

/-- External functions for the examples: toy hashes (the sum of the bytes), a validity
check that accepts every key, and the script size limit 520. -/
def exampleExternals : Externals where
  GetID := fun pubkey => ⟨pubkey.vch.sum⟩
  IsFullyValid := fun _ => true
  CKeyGetPubKey := fun key => ⟨2 :: key.keydata⟩
  ScriptID := fun script => ⟨script.sum⟩
  MAX_SCRIPT_ELEMENT_SIZE := 520

/-- An example secret key. -/
def exampleKey1 : CKey := ⟨true, true, [1, 1, 1]⟩

/-- Another example secret key. -/
def exampleKey2 : CKey := ⟨true, true, [2, 2, 2]⟩

/-- A secret key that is not valid (a default-constructed `CKey`: `fValid` is false). -/
def exampleInvalidKey : CKey := ⟨false, false, List.replicate 32 0⟩

/-- An example flat provider: one entry in each map, all under the identifier 1. -/
def exampleFlatA : FlatSigningProvider where
  scripts := ⟨[(⟨1⟩, [0x51])]⟩
  pubkeys := ⟨[(⟨1⟩, ⟨[2, 7]⟩)]⟩
  origins := ⟨[(⟨1⟩, (⟨[2, 7]⟩, ⟨[1, 2, 3, 4], [0]⟩))]⟩
  keys := ⟨[(⟨1⟩, exampleKey1)]⟩

/-- An example flat provider: other entries under the identifier 1, and entries under 2. -/
def exampleFlatB : FlatSigningProvider where
  scripts := ⟨[(⟨1⟩, [0x52]), (⟨2⟩, [0x53])]⟩
  pubkeys := ⟨[(⟨1⟩, ⟨[3, 8]⟩), (⟨2⟩, ⟨[3, 9]⟩)]⟩
  origins := ⟨[(⟨1⟩, (⟨[3, 8]⟩, ⟨[5, 6, 7, 8], [1]⟩)), (⟨2⟩, (⟨[3, 9]⟩, ⟨[5, 6, 7, 8], [2]⟩))]⟩
  keys := ⟨[(⟨1⟩, exampleKey2), (⟨2⟩, exampleKey2)]⟩

/-- An example public key: the compressed serialisation of the generator of secp256k1
(the public key of the secret key 1), 33 bytes that start with 2. -/
def examplePubKey : CPubKey :=
  ⟨[0x02, 0x79, 0xbe, 0x66, 0x7e, 0xf9, 0xdc, 0xbb, 0xac, 0x55, 0xa0, 0x62, 0x95, 0xce, 0x87,
    0x0b, 0x07, 0x02, 0x9b, 0xfc, 0xdb, 0x2d, 0xce, 0x28, 0xd9, 0x59, 0xf2, 0x81, 0x5b, 0x16,
    0xf8, 0x17, 0x98]⟩

/-- The pay-to-pubkey script of the example key: the push of its bytes, then `OP_CHECKSIG`. -/
def exampleP2PK : CScript :=
  (CScript.pushData [] examplePubKey.vch).pushOpcode OP_CHECKSIG

/-- A provider that watches the example pay-to-pubkey script and nothing else. -/
def exampleWatching : FillableSigningProvider where
  mapKeys := StdMap.empty
  mapWatchKeys := ⟨[(exampleExternals.GetID examplePubKey, examplePubKey)]⟩
  mapScripts := StdMap.empty
  setWatchOnly := ⟨[exampleP2PK]⟩

/-- The example key pushed with `OP_PUSHDATA1` and followed by `OP_CHECKSIG`: another
script than `exampleP2PK` with the same key. -/
def exampleP2PKLong : CScript :=
  [OP_PUSHDATA1, 33] ++ examplePubKey.vch ++ [OP_CHECKSIG]

/-- A provider that holds the second example key under the identifier of the example
public key and under the identifier 5. -/
def exampleHoldingKey2 : FillableSigningProvider where
  mapKeys := ⟨[(exampleExternals.GetID examplePubKey, exampleKey2), (⟨5⟩, exampleKey2)]⟩
  mapWatchKeys := StdMap.empty
  mapScripts := StdMap.empty
  setWatchOnly := StdSet.emptySet

/-- A provider that holds the first example key as a secret key and, under the same
identifier, the example public key as a watch-only key. -/
def exampleSecretAndWatched : FillableSigningProvider where
  mapKeys := ⟨[(exampleExternals.GetID examplePubKey, exampleKey1)]⟩
  mapWatchKeys := ⟨[(exampleExternals.GetID examplePubKey, examplePubKey)]⟩
  mapScripts := StdMap.empty
  setWatchOnly := ⟨[exampleP2PK]⟩

/-- Three calls after which a watched script has lost its key: watch the example script,
watch the other script with the same key, stop watching the first. -/
def exampleOpsLosingKey : List FillableOp :=
  [FillableOp.AddWatchOnly exampleP2PK, FillableOp.AddWatchOnly exampleP2PKLong,
    FillableOp.RemoveWatchOnly exampleP2PK]

/-- Four calls whose watch-only scripts are the example script and a script with no key. -/
def exampleOpsOneScript : List FillableOp :=
  [FillableOp.AddWatchOnly [0x51], FillableOp.AddWatchOnly exampleP2PK,
    FillableOp.AddKeyPubKey exampleKey1 examplePubKey, FillableOp.RemoveWatchOnly [0x51]]

/-! ## Lemmas on the containers -/

namespace StdMap

variable {K V : Type} [DecidableEq K]

theorem findIn_append (k : K) (l r : List (K × V)) :
    findIn k (l ++ r) = match findIn k l with
      | some v => some v
      | none => findIn k r := by
  induction l with
  | nil => simp [findIn]
  | cons e rest ih =>
    by_cases h : e.1 = k
    · simp [findIn, h]
    · simp [findIn, h, ih]

theorem find_insert (m : StdMap K V) (e : K × V) (k : K) :
    (m.insert e).find k = match m.find k with
      | some v => some v
      | none => if e.1 = k then some e.2 else none := by
  unfold insert
  by_cases hp : (m.find e.1).isSome
  · rw [if_pos hp]
    by_cases h : e.1 = k
    · subst h
      obtain ⟨v, hv⟩ := Option.isSome_iff_exists.mp hp
      simp [hv]
    · cases hk : m.find k <;> simp [h]
  · rw [if_neg hp]
    simp only [find, findIn_append, findIn]

/-- A lookup after a range insert: the entry the map already had, else the first entry of
the range with that key. -/
theorem find_insertRange (range : List (K × V)) (m : StdMap K V) (k : K) :
    (m.insertRange range).find k = match m.find k with
      | some v => some v
      | none => findIn k range := by
  induction range generalizing m with
  | nil => cases h : m.find k <;> simp [insertRange, findIn, h]
  | cons e rest ih =>
    have step : (m.insertRange (e :: rest)) = (m.insert e).insertRange rest := rfl
    rw [step, ih, find_insert]
    by_cases h : e.1 = k
    · cases hk : m.find k <;> simp [findIn, h]
    · cases hk : m.find k <;> simp [findIn, h]

theorem find_assign_self (m : StdMap K V) (k : K) (v : V) : (m.assign k v).find k = some v := by
  obtain ⟨l⟩ := m
  simp only [assign, find]
  induction l with
  | nil => simp [assignIn, findIn]
  | cons e rest ih =>
    by_cases h : e.1 = k
    · simp [assignIn, findIn, h]
    · simp [assignIn, findIn, h, ih]

theorem find_assign_other (m : StdMap K V) (k k2 : K) (v : V) (hne : k2 ≠ k) :
    (m.assign k v).find k2 = m.find k2 := by
  obtain ⟨l⟩ := m
  simp only [assign, find]
  induction l with
  | nil => simp [assignIn, findIn, Ne.symm hne]
  | cons e rest ih =>
    by_cases h : e.1 = k
    · have h2 : ¬ e.1 = k2 := fun h3 => hne (h3.symm.trans h)
      simp [assignIn, findIn, h, h2, Ne.symm hne]
    · by_cases h2 : e.1 = k2
      · simp only [assignIn, findIn, if_neg h, if_pos h2]
      · simp only [assignIn, findIn, if_neg h, if_neg h2]
        exact ih

theorem findIn_filter_ne_self (k : K) (l : List (K × V)) :
    findIn k (l.filter (fun e => decide (e.1 ≠ k))) = none := by
  induction l with
  | nil => rfl
  | cons e rest ih =>
    by_cases h : e.1 = k
    · rw [List.filter_cons_of_neg (by simpa using h)]
      exact ih
    · rw [List.filter_cons_of_pos (by simpa using h)]
      simp only [findIn, if_neg h]
      exact ih

theorem findIn_filter_ne_other (k k2 : K) (hne : k2 ≠ k) (l : List (K × V)) :
    findIn k2 (l.filter (fun e => decide (e.1 ≠ k))) = findIn k2 l := by
  induction l with
  | nil => rfl
  | cons e rest ih =>
    by_cases h : e.1 = k
    · have h2 : ¬ e.1 = k2 := fun h3 => hne (h3.symm.trans h)
      rw [List.filter_cons_of_neg (by simpa using h)]
      simp only [findIn, if_neg h2]
      exact ih
    · rw [List.filter_cons_of_pos (by simpa using h)]
      by_cases h2 : e.1 = k2
      · simp only [findIn, if_pos h2]
      · simp only [findIn, if_neg h2]
        exact ih

theorem find_erase_self (m : StdMap K V) (k : K) : (m.erase k).find k = none :=
  findIn_filter_ne_self k m.entries

theorem find_erase_other (m : StdMap K V) (k k2 : K) (hne : k2 ≠ k) :
    (m.erase k).find k2 = m.find k2 :=
  findIn_filter_ne_other k k2 hne m.entries

theorem count_pos_iff (m : StdMap K V) (k : K) : m.count k > 0 ↔ (m.find k).isSome := by
  unfold count
  by_cases h : (m.find k).isSome <;> simp [h]

end StdMap

namespace StdSet

variable {T : Type} [DecidableEq T]

theorem mem_insert (s : StdSet T) (x y : T) :
    y ∈ (s.insert x).elems ↔ y = x ∨ y ∈ s.elems := by
  unfold insert
  by_cases h : x ∈ s.elems
  · rw [if_pos h]
    constructor
    · exact fun hy => Or.inr hy
    · rintro (rfl | hy)
      · exact h
      · exact hy
  · rw [if_neg h]
    simp [or_comm]

theorem mem_erase (s : StdSet T) (x y : T) :
    y ∈ (s.erase x).elems ↔ y ≠ x ∧ y ∈ s.elems := by
  simp [erase, and_comm]

theorem count_pos_iff_mem (s : StdSet T) (x : T) : s.count x > 0 ↔ x ∈ s.elems := by
  unfold count
  by_cases h : x ∈ s.elems <;> simp [h]

end StdSet

theorem LookupHelper_eq_find {K V : Type} [DecidableEq K] (map : StdMap K V) (key : K) :
    LookupHelper map key = map.find key := by
  unfold LookupHelper
  cases map.find key <;> rfl

/-! ## Merge -/

theorem Merge_GetCScript (a b : FlatSigningProvider) (id : CScriptID) :
    (Merge a b).GetCScript id = match a.GetCScript id with
      | some script => some script
      | none => b.GetCScript id := by
  simp only [FlatSigningProvider.GetCScript, LookupHelper_eq_find, Merge,
    StdMap.find_insertRange]
  cases h : a.scripts.find id with
  | some second => rfl
  | none => rfl

theorem Merge_GetPubKey (a b : FlatSigningProvider) (id : CKeyID) :
    (Merge a b).GetPubKey id = match a.GetPubKey id with
      | some pubkey => some pubkey
      | none => b.GetPubKey id := by
  simp only [FlatSigningProvider.GetPubKey, LookupHelper_eq_find, Merge,
    StdMap.find_insertRange]
  cases h : a.pubkeys.find id with
  | some second => rfl
  | none => rfl

theorem Merge_GetKey (a b : FlatSigningProvider) (id : CKeyID) :
    (Merge a b).GetKey id = match a.GetKey id with
      | some key => some key
      | none => b.GetKey id := by
  simp only [FlatSigningProvider.GetKey, LookupHelper_eq_find, Merge,
    StdMap.find_insertRange]
  cases h : a.keys.find id with
  | some second => rfl
  | none => rfl

theorem Merge_GetKeyOrigin (a b : FlatSigningProvider) (id : CKeyID) :
    (Merge a b).GetKeyOrigin id = match a.GetKeyOrigin id with
      | some info => some info
      | none => b.GetKeyOrigin id := by
  simp only [FlatSigningProvider.GetKeyOrigin, LookupHelper_eq_find, Merge,
    StdMap.find_insertRange]
  cases h : a.origins.find id with
  | some second => rfl
  | none => rfl

/-- C1: for an identifier that both `a` and `b` hold, each of the four lookups on
`Merge a b` finds the entry of `a`, and so does not return the entry of `b` when the two
differ. -/
theorem Merge_conflict_keeps_first (a b : FlatSigningProvider) :
    (∀ (id : CScriptID) (sa sb : CScript),
      a.GetCScript id = some sa → b.GetCScript id = some sb →
        (Merge a b).GetCScript id = some sa ∧
          (sa ≠ sb → (Merge a b).GetCScript id ≠ some sb)) ∧
    (∀ (id : CKeyID) (pa pb : CPubKey),
      a.GetPubKey id = some pa → b.GetPubKey id = some pb →
        (Merge a b).GetPubKey id = some pa ∧
          (pa ≠ pb → (Merge a b).GetPubKey id ≠ some pb)) ∧
    (∀ (id : CKeyID) (ka kb : CKey),
      a.GetKey id = some ka → b.GetKey id = some kb →
        (Merge a b).GetKey id = some ka ∧
          (ka ≠ kb → (Merge a b).GetKey id ≠ some kb)) ∧
    (∀ (id : CKeyID) (oa ob : KeyOriginInfo),
      a.GetKeyOrigin id = some oa → b.GetKeyOrigin id = some ob →
        (Merge a b).GetKeyOrigin id = some oa ∧
          (oa ≠ ob → (Merge a b).GetKeyOrigin id ≠ some ob)) := by
  refine ⟨?_, ?_, ?_, ?_⟩
  · intro id sa sb ha _
    have h : (Merge a b).GetCScript id = some sa := by rw [Merge_GetCScript, ha]
    exact ⟨h, fun hne heq => hne (Option.some.inj (h.symm.trans heq))⟩
  · intro id pa pb ha _
    have h : (Merge a b).GetPubKey id = some pa := by rw [Merge_GetPubKey, ha]
    exact ⟨h, fun hne heq => hne (Option.some.inj (h.symm.trans heq))⟩
  · intro id ka kb ha _
    have h : (Merge a b).GetKey id = some ka := by rw [Merge_GetKey, ha]
    exact ⟨h, fun hne heq => hne (Option.some.inj (h.symm.trans heq))⟩
  · intro id oa ob ha _
    have h : (Merge a b).GetKeyOrigin id = some oa := by rw [Merge_GetKeyOrigin, ha]
    exact ⟨h, fun hne heq => hne (Option.some.inj (h.symm.trans heq))⟩

/-- C1 at a concrete input: both example providers hold the key identifier 1, with
different secrets, and the merge returns the secret of the first. -/
theorem Merge_conflict_keeps_first_witness :
    exampleFlatA.GetKey ⟨1⟩ = some exampleKey1 ∧ exampleFlatB.GetKey ⟨1⟩ = some exampleKey2 ∧
      exampleKey1 ≠ exampleKey2 ∧
      (Merge exampleFlatA exampleFlatB).GetKey ⟨1⟩ = some exampleKey1 ∧
      (Merge exampleFlatA exampleFlatB).GetKey ⟨1⟩ ≠ some exampleKey2 :=
  have h := (Merge_conflict_keeps_first exampleFlatA exampleFlatB).2.2.1 ⟨1⟩ exampleKey1
    exampleKey2 (by decide) (by decide)
  ⟨by decide, by decide, by decide, h.1, h.2 (by decide)⟩

/-- C2: for an identifier that exactly one of `a` and `b` holds, each of the four lookups on
`Merge a b` returns the entry of that one; an identifier that neither holds is not found;
and an identifier is found in `Merge a b` exactly when `a` or `b` holds it. -/
theorem Merge_is_union (a b : FlatSigningProvider) :
    (∀ (id : CScriptID),
      (b.GetCScript id = none → (Merge a b).GetCScript id = a.GetCScript id) ∧
      (a.GetCScript id = none → (Merge a b).GetCScript id = b.GetCScript id) ∧
      (((Merge a b).GetCScript id).isSome ↔
        (a.GetCScript id).isSome ∨ (b.GetCScript id).isSome)) ∧
    (∀ (id : CKeyID),
      (b.GetPubKey id = none → (Merge a b).GetPubKey id = a.GetPubKey id) ∧
      (a.GetPubKey id = none → (Merge a b).GetPubKey id = b.GetPubKey id) ∧
      (((Merge a b).GetPubKey id).isSome ↔
        (a.GetPubKey id).isSome ∨ (b.GetPubKey id).isSome)) ∧
    (∀ (id : CKeyID),
      (b.GetKey id = none → (Merge a b).GetKey id = a.GetKey id) ∧
      (a.GetKey id = none → (Merge a b).GetKey id = b.GetKey id) ∧
      (((Merge a b).GetKey id).isSome ↔ (a.GetKey id).isSome ∨ (b.GetKey id).isSome)) ∧
    (∀ (id : CKeyID),
      (b.GetKeyOrigin id = none → (Merge a b).GetKeyOrigin id = a.GetKeyOrigin id) ∧
      (a.GetKeyOrigin id = none → (Merge a b).GetKeyOrigin id = b.GetKeyOrigin id) ∧
      (((Merge a b).GetKeyOrigin id).isSome ↔
        (a.GetKeyOrigin id).isSome ∨ (b.GetKeyOrigin id).isSome)) := by
  refine ⟨fun id => ?_, fun id => ?_, fun id => ?_, fun id => ?_⟩
  · rw [Merge_GetCScript]
    cases ha : a.GetCScript id <;> cases hb : b.GetCScript id <;> simp
  · rw [Merge_GetPubKey]
    cases ha : a.GetPubKey id <;> cases hb : b.GetPubKey id <;> simp
  · rw [Merge_GetKey]
    cases ha : a.GetKey id <;> cases hb : b.GetKey id <;> simp
  · rw [Merge_GetKeyOrigin]
    cases ha : a.GetKeyOrigin id <;> cases hb : b.GetKeyOrigin id <;> simp

/-- C2 at a concrete input: only the second example provider holds the key identifier 2,
and the merge returns its entry; neither holds the identifier 3, and the merge does not
find it. -/
theorem Merge_is_union_witness :
    exampleFlatA.GetKey ⟨2⟩ = none ∧
      (Merge exampleFlatA exampleFlatB).GetKey ⟨2⟩ = some exampleKey2 ∧
      (Merge exampleFlatA exampleFlatB).GetKey ⟨3⟩ = none :=
  have h2 := ((Merge_is_union exampleFlatA exampleFlatB).2.2.1 ⟨2⟩).2.1 (by decide)
  have h3 := ((Merge_is_union exampleFlatA exampleFlatB).2.2.1 ⟨3⟩).1 (by decide)
  ⟨by decide, h2.trans (by decide), h3.trans (by decide)⟩

/-! ## HidingSigningProvider -/

/-- C3: whatever the wrapped provider `p` answers, `GetKey` finds nothing when
`m_hide_secret` is set and `GetKeyOrigin` finds nothing when `m_hide_origin` is set;
`GetPubKey` and `GetCScript` answer as `p` does under every pair of flags; and each flag
touches its own lookup only: `GetKey` answers as `p` does when `m_hide_secret` is clear,
`GetKeyOrigin` answers as `p` does when `m_hide_origin` is clear, whatever the other flag. -/
theorem Hiding_suppresses_own_lookup_only (p : SigningProvider) (scriptid : CScriptID)
    (keyid : CKeyID) (hide_secret hide_origin : Bool) :
    HidingSigningProvider.GetKey ⟨true, hide_origin, p⟩ keyid = none ∧
    HidingSigningProvider.GetKeyOrigin ⟨hide_secret, true, p⟩ keyid = none ∧
    HidingSigningProvider.GetPubKey ⟨hide_secret, hide_origin, p⟩ keyid = p.GetPubKey keyid ∧
    HidingSigningProvider.GetCScript ⟨hide_secret, hide_origin, p⟩ scriptid
      = p.GetCScript scriptid ∧
    HidingSigningProvider.GetKey ⟨false, hide_origin, p⟩ keyid = p.GetKey keyid ∧
    HidingSigningProvider.GetKeyOrigin ⟨hide_secret, false, p⟩ keyid = p.GetKeyOrigin keyid :=
  ⟨rfl, rfl, rfl, rfl, rfl, rfl⟩

/-- C4: with both flags clear, each of the four lookups of the decorator returns what the
wrapped provider `p` returns, found or not found and the same value. -/
theorem Hiding_no_flags_is_identity (p : SigningProvider) (scriptid : CScriptID)
    (keyid : CKeyID) :
    HidingSigningProvider.GetCScript ⟨false, false, p⟩ scriptid = p.GetCScript scriptid ∧
    HidingSigningProvider.GetPubKey ⟨false, false, p⟩ keyid = p.GetPubKey keyid ∧
    HidingSigningProvider.GetKey ⟨false, false, p⟩ keyid = p.GetKey keyid ∧
    HidingSigningProvider.GetKeyOrigin ⟨false, false, p⟩ keyid = p.GetKeyOrigin keyid :=
  ⟨rfl, rfl, rfl, rfl⟩

/-! ## FillableSigningProvider: scripts -/

namespace FillableSigningProvider

theorem HaveCScript_iff (self : FillableSigningProvider) (hash : CScriptID) :
    self.HaveCScript hash = true ↔ (self.mapScripts.find hash).isSome := by
  simp [HaveCScript, StdMap.count_pos_iff]

theorem HaveKey_iff (self : FillableSigningProvider) (address : CKeyID) :
    self.HaveKey address = true ↔ (self.mapKeys.find address).isSome := by
  simp [HaveKey, StdMap.count_pos_iff]

theorem HaveWatchOnly_iff (self : FillableSigningProvider) (dest : CScript) :
    self.HaveWatchOnly dest = true ↔ dest ∈ self.setWatchOnly.elems := by
  simp [HaveWatchOnly, StdSet.count_pos_iff_mem]

theorem GetCScript_eq_find (self : FillableSigningProvider) (hash : CScriptID) :
    self.GetCScript hash = self.mapScripts.find hash := by
  unfold GetCScript
  cases self.mapScripts.find hash <;> rfl

theorem GetKey_eq_find (self : FillableSigningProvider) (address : CKeyID) :
    self.GetKey address = self.mapKeys.find address := by
  unfold GetKey
  cases self.mapKeys.find address <;> rfl

theorem HaveCScript_congr (s1 s2 : FillableSigningProvider) (hash : CScriptID)
    (h : s1.mapScripts.find hash = s2.mapScripts.find hash) :
    s1.HaveCScript hash = s2.HaveCScript hash := by
  simp only [HaveCScript, StdMap.count, h]

end FillableSigningProvider

/-- C5: `AddCScript` returns false exactly when the script is longer than
`MAX_SCRIPT_ELEMENT_SIZE`; it then leaves the provider as it was, so `HaveCScript` of the
script's identifier keeps its value; a script one byte longer than the maximum is
rejected. -/
theorem AddCScript_rejects_exactly_oversized (ext : Externals)
    (self : FillableSigningProvider) (redeemScript : CScript) :
    ((self.AddCScript ext redeemScript).1 = false ↔
      redeemScript.length > ext.MAX_SCRIPT_ELEMENT_SIZE) ∧
    (redeemScript.length > ext.MAX_SCRIPT_ELEMENT_SIZE →
      (self.AddCScript ext redeemScript).2 = self ∧
      (self.AddCScript ext redeemScript).2.HaveCScript (ext.ScriptID redeemScript)
        = self.HaveCScript (ext.ScriptID redeemScript)) ∧
    (redeemScript.length = ext.MAX_SCRIPT_ELEMENT_SIZE + 1 →
      (self.AddCScript ext redeemScript).1 = false) := by
  unfold FillableSigningProvider.AddCScript
  by_cases h : redeemScript.length > ext.MAX_SCRIPT_ELEMENT_SIZE
  · rw [if_pos h]
    exact ⟨⟨fun _ => h, fun _ => rfl⟩, fun _ => ⟨rfl, rfl⟩, fun _ => rfl⟩
  · rw [if_neg h]
    refine ⟨⟨fun hf => ?_, fun hl => absurd hl h⟩, fun hl => absurd hl h, fun hl => ?_⟩
    · exact absurd hf (by simp)
    · exact absurd (by omega) h

/-- C5 at a concrete input: a script of 521 bytes, one more than the limit 520 of the
example, is refused by the empty provider, which stays empty. -/
theorem AddCScript_rejects_exactly_oversized_witness :
    (List.replicate 521 0).length = exampleExternals.MAX_SCRIPT_ELEMENT_SIZE + 1 ∧
    (FillableSigningProvider.init.AddCScript exampleExternals (List.replicate 521 0)).1
      = false ∧
    (FillableSigningProvider.init.AddCScript exampleExternals (List.replicate 521 0)).2
      = FillableSigningProvider.init ∧
    (FillableSigningProvider.init.AddCScript exampleExternals
      (List.replicate 521 0)).2.HaveCScript (exampleExternals.ScriptID (List.replicate 521 0))
      = false :=
  have hlen : (List.replicate 521 0).length = exampleExternals.MAX_SCRIPT_ELEMENT_SIZE + 1 := by
    simp only [List.length_replicate, exampleExternals]
  have hgt : (List.replicate 521 0).length > exampleExternals.MAX_SCRIPT_ELEMENT_SIZE := by
    simp only [List.length_replicate, exampleExternals]; decide
  have h := AddCScript_rejects_exactly_oversized exampleExternals FillableSigningProvider.init
    (List.replicate 521 0)
  ⟨hlen, h.2.2 hlen, (h.2.1 hgt).1, (h.2.1 hgt).2.trans rfl⟩

/-- C6: `AddCScript` of a script no longer than `MAX_SCRIPT_ELEMENT_SIZE` returns true;
afterwards `HaveCScript` of the script's identifier is true and `GetCScript` of it returns
the script, while `GetCScript` and `HaveCScript` of every other identifier answer as
before. -/
theorem AddCScript_stores_script (ext : Externals) (self : FillableSigningProvider)
    (redeemScript : CScript) (hsize : redeemScript.length ≤ ext.MAX_SCRIPT_ELEMENT_SIZE) :
    (self.AddCScript ext redeemScript).1 = true ∧
    (self.AddCScript ext redeemScript).2.HaveCScript (ext.ScriptID redeemScript) = true ∧
    (self.AddCScript ext redeemScript).2.GetCScript (ext.ScriptID redeemScript)
      = some redeemScript ∧
    (∀ hash : CScriptID, hash ≠ ext.ScriptID redeemScript →
      (self.AddCScript ext redeemScript).2.GetCScript hash = self.GetCScript hash ∧
      (self.AddCScript ext redeemScript).2.HaveCScript hash = self.HaveCScript hash) := by
  have hnot : ¬ redeemScript.length > ext.MAX_SCRIPT_ELEMENT_SIZE := by omega
  unfold FillableSigningProvider.AddCScript
  rw [if_neg hnot]
  refine ⟨rfl, ?_, ?_, fun hash hne => ⟨?_, ?_⟩⟩
  · rw [FillableSigningProvider.HaveCScript_iff]
    simp [StdMap.find_assign_self]
  · rw [FillableSigningProvider.GetCScript_eq_find]
    exact StdMap.find_assign_self _ _ _
  · rw [FillableSigningProvider.GetCScript_eq_find, FillableSigningProvider.GetCScript_eq_find]
    exact StdMap.find_assign_other _ _ _ _ hne
  · exact FillableSigningProvider.HaveCScript_congr _ _ _
      (StdMap.find_assign_other _ _ _ _ hne)

/-- C6 at a concrete input: a script of exactly 520 bytes, the limit of the example, is
stored by the empty provider and read back. -/
theorem AddCScript_stores_script_witness :
    (List.replicate 520 0).length ≤ exampleExternals.MAX_SCRIPT_ELEMENT_SIZE ∧
    (FillableSigningProvider.init.AddCScript exampleExternals (List.replicate 520 0)).1
      = true ∧
    (FillableSigningProvider.init.AddCScript exampleExternals
      (List.replicate 520 0)).2.GetCScript (exampleExternals.ScriptID (List.replicate 520 0))
      = some (List.replicate 520 0) :=
  have hlen : (List.replicate 520 0).length ≤ exampleExternals.MAX_SCRIPT_ELEMENT_SIZE := by
    simp only [List.length_replicate, exampleExternals]; decide
  have h := AddCScript_stores_script exampleExternals FillableSigningProvider.init
    (List.replicate 520 0) hlen
  ⟨hlen, h.1, h.2.2.1⟩

/-! ## FillableSigningProvider: watch-only scripts -/

namespace FillableSigningProvider

theorem GetPubKey_of_not_HaveKey (ext : Externals) (self : FillableSigningProvider)
    (address : CKeyID) (hkey : self.HaveKey address = false) :
    GetPubKey ext self address = some (self.mapWatchKeys.find address) := by
  have hnone : self.mapKeys.find address = none := by
    cases hf : self.mapKeys.find address with
    | none => rfl
    | some key =>
      have := (HaveKey_iff self address).mpr (by simp [hf])
      rw [hkey] at this
      exact absurd this (by decide)
  unfold GetPubKey
  rw [GetKey_eq_find, hnone]
  cases self.mapWatchKeys.find address <;> rfl

end FillableSigningProvider

/-- C7: `AddWatchOnly` returns true (the assertion of the hook it calls holds); afterwards
`HaveWatchOnly` of the script and `HaveWatchOnly()` are true; and when `ExtractPubKey`
recognises the script and yields the key `P`, whose identifier is not that of a known
secret key, `GetPubKey` of that identifier afterwards returns `P` (it returns true, and it
does not abort). -/
theorem AddWatchOnly_then_watched (ext : Externals) (self : FillableSigningProvider)
    (dest : CScript) :
    ∃ after : FillableSigningProvider,
      self.AddWatchOnly ext dest = some (true, after) ∧
      after.HaveWatchOnly dest = true ∧
      after.HaveWatchOnlyAny = true ∧
      (∀ P : CPubKey, ExtractPubKey ext dest = some P →
        self.HaveKey (ext.GetID P) = false →
          after.HaveKey (ext.GetID P) = false ∧
          FillableSigningProvider.GetPubKey ext after (ext.GetID P) = some (some P)) := by
  have hmem : dest ∈ (self.setWatchOnly.insert dest).elems :=
    (StdSet.mem_insert _ _ _).mpr (Or.inl rfl)
  have hany : (!(self.setWatchOnly.insert dest).empty) = true := by
    cases hl : (self.setWatchOnly.insert dest).elems with
    | nil => rw [hl] at hmem; exact absurd hmem (List.not_mem_nil _)
    | cons x rest => simp [StdSet.empty, hl]
  cases hx : ExtractPubKey ext dest with
  | none =>
    refine ⟨{ self with setWatchOnly := self.setWatchOnly.insert dest }, ?_, ?_, hany, ?_⟩
    · simp only [FillableSigningProvider.AddWatchOnly, hx]
    · exact (FillableSigningProvider.HaveWatchOnly_iff _ _).mpr hmem
    · intro P hP
      exact absurd hP (by simp)
  | some pubKey =>
    refine ⟨{ self with
      setWatchOnly := self.setWatchOnly.insert dest,
      mapWatchKeys := self.mapWatchKeys.assign (ext.GetID pubKey) pubKey }, ?_, ?_, hany, ?_⟩
    · have hcount : (self.mapWatchKeys.assign (ext.GetID pubKey) pubKey).count
          (ext.GetID pubKey) ≠ 0 := by
        simp [StdMap.count, StdMap.find_assign_self]
      simp only [FillableSigningProvider.AddWatchOnly, hx,
        FillableSigningProvider.ImplicitlyLearnRelatedKeyScripts, hcount, ne_eq,
        not_false_eq_true, decide_True, Bool.or_true, if_true]
    · exact (FillableSigningProvider.HaveWatchOnly_iff _ _).mpr hmem
    · intro P hP hkey
      have hPeq : pubKey = P := Option.some.inj hP
      subst hPeq
      refine ⟨hkey, ?_⟩
      refine (FillableSigningProvider.GetPubKey_of_not_HaveKey ext _ _ ?_).trans ?_
      · exact hkey
      · exact congrArg some (StdMap.find_assign_self _ _ _)

/-- C7 at a concrete input: the empty provider is told to watch the pay-to-pubkey script of
the example key, which `ExtractPubKey` recognises; the result of the call has the script
watched and returns the key under its identifier. -/
theorem AddWatchOnly_then_watched_witness :
    ExtractPubKey exampleExternals exampleP2PK = some examplePubKey ∧
    FillableSigningProvider.init.HaveKey (exampleExternals.GetID examplePubKey) = false ∧
    ∃ after : FillableSigningProvider,
      FillableSigningProvider.init.AddWatchOnly exampleExternals exampleP2PK
        = some (true, after) ∧
      after.HaveWatchOnly exampleP2PK = true ∧
      FillableSigningProvider.GetPubKey exampleExternals after
        (exampleExternals.GetID examplePubKey) = some (some examplePubKey) :=
  have hx : ExtractPubKey exampleExternals exampleP2PK = some examplePubKey := by decide
  have hk : FillableSigningProvider.init.HaveKey (exampleExternals.GetID examplePubKey)
      = false := by decide
  match AddWatchOnly_then_watched exampleExternals FillableSigningProvider.init
      exampleP2PK with
  | ⟨after, hadd, hwatch, _, hpub⟩ => ⟨hx, hk, after, hadd, hwatch, (hpub _ hx hk).2⟩

/-- C8: `RemoveWatchOnly` returns true; afterwards `HaveWatchOnly` of the script is false;
and when `ExtractPubKey` recognises the script and yields the key `P`, whose identifier is
not that of a known secret key, `GetPubKey` of that identifier afterwards finds nothing (it
returns false, and it does not abort). -/
theorem RemoveWatchOnly_then_unwatched (ext : Externals) (self : FillableSigningProvider)
    (dest : CScript) :
    (self.RemoveWatchOnly ext dest).1 = true ∧
    (self.RemoveWatchOnly ext dest).2.HaveWatchOnly dest = false ∧
    (∀ P : CPubKey, ExtractPubKey ext dest = some P →
      self.HaveKey (ext.GetID P) = false →
        (self.RemoveWatchOnly ext dest).2.HaveKey (ext.GetID P) = false ∧
        FillableSigningProvider.GetPubKey ext (self.RemoveWatchOnly ext dest).2 (ext.GetID P)
          = some none) := by
  have hnot : dest ∉ (self.setWatchOnly.erase dest).elems := fun hm =>
    ((StdSet.mem_erase _ _ _).mp hm).1 rfl
  cases hx : ExtractPubKey ext dest with
  | none =>
    simp only [FillableSigningProvider.RemoveWatchOnly, hx]
    refine ⟨trivial, ?_, ?_⟩
    · cases hw : FillableSigningProvider.HaveWatchOnly
          { self with setWatchOnly := self.setWatchOnly.erase dest } dest with
      | false => rfl
      | true => exact absurd ((FillableSigningProvider.HaveWatchOnly_iff _ _).mp hw) hnot
    · intro P hP
      exact absurd hP (by simp)
  | some pubKey =>
    simp only [FillableSigningProvider.RemoveWatchOnly, hx]
    refine ⟨trivial, ?_, ?_⟩
    · cases hw : FillableSigningProvider.HaveWatchOnly
          { self with
            setWatchOnly := self.setWatchOnly.erase dest,
            mapWatchKeys := self.mapWatchKeys.erase (ext.GetID pubKey) } dest with
      | false => rfl
      | true => exact absurd ((FillableSigningProvider.HaveWatchOnly_iff _ _).mp hw) hnot
    · intro P hP hkey
      have hPeq : pubKey = P := Option.some.inj hP
      subst hPeq
      refine ⟨hkey, ?_⟩
      refine (FillableSigningProvider.GetPubKey_of_not_HaveKey ext _ _ ?_).trans ?_
      · exact hkey
      · exact congrArg some (StdMap.find_erase_self _ _)

/-- C8 at a concrete input: a provider that watches the example pay-to-pubkey script
returns the example key under its identifier; after `RemoveWatchOnly` of the script it
watches the script no more and finds no key under that identifier. -/
theorem RemoveWatchOnly_then_unwatched_witness :
    exampleWatching.HaveWatchOnly exampleP2PK = true ∧
    FillableSigningProvider.GetPubKey exampleExternals exampleWatching
      (exampleExternals.GetID examplePubKey) = some (some examplePubKey) ∧
    (exampleWatching.RemoveWatchOnly exampleExternals exampleP2PK).1 = true ∧
    (exampleWatching.RemoveWatchOnly exampleExternals exampleP2PK).2.HaveWatchOnly exampleP2PK
      = false ∧
    FillableSigningProvider.GetPubKey exampleExternals
      (exampleWatching.RemoveWatchOnly exampleExternals exampleP2PK).2
      (exampleExternals.GetID examplePubKey) = some none :=
  have h := RemoveWatchOnly_then_unwatched exampleExternals exampleWatching exampleP2PK
  ⟨by decide, by decide, h.1, h.2.1, (h.2.2 examplePubKey (by decide) (by decide)).2⟩

/-! ## ExtractPubKey -/

theorem getD_append_cons (pre rest : List Nat) (x d : Nat) :
    (pre ++ x :: rest).getD pre.length d = x := by
  induction pre with
  | nil => rfl
  | cons y ys ih => simpa using ih

theorem GetOp_at_end (script : CScript) (pc : Nat) (h : pc ≥ script.length) :
    GetOp script pc = none := by
  unfold GetOp
  rw [if_pos h]

theorem GetOp_direct_push (vch rest : List Nat) (hlen : vch.length < OP_PUSHDATA1) :
    GetOp (vch.length :: (vch ++ rest)) 0 = some (vch.length + 1, vch.length, vch) := by
  have h4 : vch.length ≤ OP_PUSHDATA4 := by
    unfold OP_PUSHDATA1 at hlen
    unfold OP_PUSHDATA4
    omega
  unfold GetOp
  simp [hlen, h4]
  omega

theorem GetOp_plain_opcode (pre rest : List Nat) (opcode : Nat) (hop : OP_PUSHDATA4 < opcode) :
    GetOp (pre ++ opcode :: rest) pre.length = some (pre.length + 1, opcode, []) := by
  unfold GetOp
  have hlt : ¬ pre.length ≥ (pre ++ opcode :: rest).length := by simp
  have hnot : ¬ opcode ≤ OP_PUSHDATA4 := by omega
  rw [if_neg hlt]
  simp only [getD_append_cons, if_neg hnot]

theorem GetOp_cut_short_PUSHDATA1 (pre : List Nat) :
    GetOp (pre ++ [OP_PUSHDATA1]) pre.length = none := by
  unfold GetOp
  have hlt : ¬ pre.length ≥ (pre ++ [OP_PUSHDATA1]).length := by simp
  rw [if_neg hlt]
  simp only [getD_append_cons]
  simp [OP_PUSHDATA1, OP_PUSHDATA4]

theorem ValidSize_length (vch : List Nat) (h : CPubKey.ValidSize vch = true) :
    vch.length = 33 ∨ vch.length = 65 := by
  simp only [CPubKey.ValidSize, Bool.and_eq_true, decide_eq_true_eq] at h
  obtain ⟨hpos, hlen⟩ := h
  unfold CPubKey.GetLen at hlen
  split at hlen
  · exact Or.inl hlen.symm
  · split at hlen
    · exact Or.inr hlen.symm
    · omega

theorem ofVch_of_ValidSize (vch : List Nat) (h : CPubKey.ValidSize vch = true) :
    CPubKey.ofVch vch = ⟨vch⟩ := by
  simp only [CPubKey.ValidSize, Bool.and_eq_true, decide_eq_true_eq] at h
  obtain ⟨hpos, hlen⟩ := h
  cases vch with
  | nil => simp at hpos
  | cons chHeader rest =>
    simp only [List.headD_cons] at hlen
    unfold CPubKey.ofVch
    simp only [hlen]
    rw [if_pos ⟨by simp, trivial⟩]

/-- What `ExtractPubKey` accepts, in terms of `GetOp`: a first operation that pushes a
validly-sized, fully valid key; a second operation that is `OP_CHECKSIG`; and no third
operation that `GetOp` can read. -/
theorem ExtractPubKey_eq_some_iff (ext : Externals) (dest : CScript) (P : CPubKey) :
    ExtractPubKey ext dest = some P ↔
      ∃ pc1 opcode1 vch pc2 vch2,
        GetOp dest 0 = some (pc1, opcode1, vch) ∧ CPubKey.ValidSize vch = true ∧
        P = ⟨vch⟩ ∧ ext.IsFullyValid P = true ∧
        GetOp dest pc1 = some (pc2, OP_CHECKSIG, vch2) ∧ GetOp dest pc2 = none := by
  unfold ExtractPubKey
  constructor
  · intro h
    cases h1 : GetOp dest 0 with
    | none => simp [h1] at h
    | some r1 =>
      obtain ⟨pc1, opcode1, vch⟩ := r1
      simp only [h1] at h
      cases hv : CPubKey.ValidSize vch with
      | false => simp [hv] at h
      | true =>
        simp only [hv, Bool.not_true, Bool.false_eq_true, if_false,
          ofVch_of_ValidSize vch hv] at h
        cases hf : ext.IsFullyValid ⟨vch⟩ with
        | false => simp [hf] at h
        | true =>
          simp only [hf, Bool.not_true, Bool.false_eq_true, if_false] at h
          cases h2 : GetOp dest pc1 with
          | none => simp [h2] at h
          | some r2 =>
            obtain ⟨pc2, opcode2, vch2⟩ := r2
            simp only [h2] at h
            by_cases hop : opcode2 = OP_CHECKSIG
            · subst hop
              cases h3 : GetOp dest pc2 with
              | some r3 => simp [h3] at h
              | none =>
                simp [h3] at h
                exact ⟨pc1, opcode1, vch, pc2, vch2, rfl, hv, h.symm, by rw [← h]; exact hf,
                  h2, h3⟩
            · simp [hop] at h
  · rintro ⟨pc1, opcode1, vch, pc2, vch2, h1, hv, hP, hf, h2, h3⟩
    subst hP
    simp [h1, hv, ofVch_of_ValidSize vch hv, hf, h2, h3]

theorem p2pk_bytes (vch : List Nat) (hv : CPubKey.ValidSize vch = true) :
    (CScript.pushData [] vch).pushOpcode OP_CHECKSIG = vch.length :: (vch ++ [OP_CHECKSIG]) := by
  have hlen : vch.length < OP_PUSHDATA1 := by
    unfold OP_PUSHDATA1
    rcases ValidSize_length vch hv with h | h <;> omega
  unfold CScript.pushOpcode CScript.pushData
  rw [if_pos hlen]
  simp

/-- The pay-to-pubkey script of a valid key `P`, followed by bytes `tail` at which `GetOp`
reads no operation, is accepted with the key `P`. -/
theorem ExtractPubKey_p2pk_then (ext : Externals) (P : CPubKey) (tail : List Nat)
    (hv : CPubKey.ValidSize P.vch = true) (hf : ext.IsFullyValid P = true)
    (hend : GetOp (P.vch.length :: (P.vch ++ [OP_CHECKSIG]) ++ tail)
      (P.vch.length + 2) = none) :
    ExtractPubKey ext ((CScript.pushData [] P.vch).pushOpcode OP_CHECKSIG ++ tail) = some P := by
  have hlen : P.vch.length < OP_PUSHDATA1 := by
    unfold OP_PUSHDATA1
    rcases ValidSize_length P.vch hv with h | h <;> omega
  rw [p2pk_bytes P.vch hv, ExtractPubKey_eq_some_iff]
  refine ⟨P.vch.length + 1, P.vch.length, P.vch, P.vch.length + 2, [], ?_, hv, rfl, hf, ?_, hend⟩
  · have := GetOp_direct_push P.vch ([OP_CHECKSIG] ++ tail) hlen
    simpa using this
  · have := GetOp_plain_opcode (P.vch.length :: P.vch) tail OP_CHECKSIG (by decide)
    simpa using this

/-- C9 (the code at the failing input): for every valid public key `P`, the pay-to-pubkey
script of `P` followed by the one extra byte `OP_PUSHDATA1` is accepted by `ExtractPubKey`,
which yields `P`: the third `GetOp` fails on the push that the end of the script cuts
short, and the function takes that failure for the end of the script. -/
theorem ExtractPubKey_accepts_trailing_cut_push (ext : Externals) (P : CPubKey)
    (hv : CPubKey.ValidSize P.vch = true) (hf : ext.IsFullyValid P = true) :
    ExtractPubKey ext ((CScript.pushData [] P.vch).pushOpcode OP_CHECKSIG ++ [OP_PUSHDATA1])
      = some P := by
  refine ExtractPubKey_p2pk_then ext P [OP_PUSHDATA1] hv hf ?_
  have := GetOp_cut_short_PUSHDATA1 (P.vch.length :: (P.vch ++ [OP_CHECKSIG]))
  simpa using this

/-- C9 at a concrete input: the example pay-to-pubkey script with the byte 0x4c appended
has 36 bytes, one more than the pattern, and the example key is extracted from it. -/
theorem ExtractPubKey_accepts_trailing_cut_push_witness :
    CPubKey.ValidSize examplePubKey.vch = true ∧
    (exampleP2PK ++ [0x4c]).length = exampleP2PK.length + 1 ∧
    ExtractPubKey exampleExternals (exampleP2PK ++ [0x4c]) = some examplePubKey :=
  ⟨by decide, by decide,
    ExtractPubKey_accepts_trailing_cut_push exampleExternals examplePubKey (by decide) rfl⟩

/-- C10: for every public key `P` whose bytes have a valid size and which passes the
full-validity check, `ExtractPubKey` of the script that pushes the bytes of `P` and then
has `OP_CHECKSIG` returns true and yields `P`. -/
theorem ExtractPubKey_of_pay_to_pubkey (ext : Externals) (P : CPubKey)
    (hv : CPubKey.ValidSize P.vch = true) (hf : ext.IsFullyValid P = true) :
    ExtractPubKey ext ((CScript.pushData [] P.vch).pushOpcode OP_CHECKSIG) = some P := by
  have h := ExtractPubKey_p2pk_then ext P [] hv hf (GetOp_at_end _ _ (by simp))
  simpa using h

/-- C10 at a concrete input: the example key has a valid size, and it is extracted from
its pay-to-pubkey script, the 35 bytes 0x21, the key, 0xac. -/
theorem ExtractPubKey_of_pay_to_pubkey_witness :
    CPubKey.ValidSize examplePubKey.vch = true ∧
    exampleP2PK = 0x21 :: (examplePubKey.vch ++ [0xac]) ∧
    ExtractPubKey exampleExternals exampleP2PK = some examplePubKey :=
  ⟨by decide, by decide,
    ExtractPubKey_of_pay_to_pubkey exampleExternals examplePubKey (by decide) rfl⟩

/-! ## More lemmas on the containers -/


namespace StdMap
variable {K V : Type} [DecidableEq K]

theorem findIn_isSome_iff (k : K) (l : List (K × V)) :
    (findIn k l).isSome = true ↔ ∃ e ∈ l, e.1 = k := by
  induction l with
  | nil => simp [findIn]
  | cons e rest ih =>
    by_cases h : e.1 = k
    · simp [findIn, h]
    · simp [findIn, h, ih]

end StdMap

namespace StdSet
variable {T : Type} [DecidableEq T]

theorem nodup_insert (s : StdSet T) (x : T) (h : s.elems.Nodup) : (s.insert x).elems.Nodup := by
  unfold insert
  by_cases hx : x ∈ s.elems
  · rw [if_pos hx]; exact h
  · rw [if_neg hx]
    exact List.Nodup.append h (List.nodup_singleton x) (by simpa using hx)

theorem mem_foldl_insert {E : Type} (f : E → T) (l : List E) (s : StdSet T) (x : T) :
    x ∈ (l.foldl (fun acc e => acc.insert (f e)) s).elems ↔
      x ∈ s.elems ∨ ∃ e ∈ l, f e = x := by
  induction l generalizing s with
  | nil => simp
  | cons e rest ih =>
    rw [List.foldl_cons, ih, mem_insert]
    constructor
    · rintro ((rfl | h) | ⟨e2, he2, rfl⟩)
      · exact Or.inr ⟨e, List.mem_cons_self _ _, rfl⟩
      · exact Or.inl h
      · exact Or.inr ⟨e2, List.mem_cons_of_mem _ he2, rfl⟩
    · rintro (h | ⟨e2, he2, rfl⟩)
      · exact Or.inl (Or.inr h)
      · rcases List.mem_cons.mp he2 with rfl | h2
        · exact Or.inl (Or.inl rfl)
        · exact Or.inr ⟨e2, h2, rfl⟩

theorem nodup_foldl_insert {E : Type} (f : E → T) (l : List E) (s : StdSet T)
    (h : s.elems.Nodup) : (l.foldl (fun acc e => acc.insert (f e)) s).elems.Nodup := by
  induction l generalizing s with
  | nil => exact h
  | cons e rest ih =>
    rw [List.foldl_cons]
    exact ih _ (nodup_insert s (f e) h)

end StdSet

/-! ## FillableSigningProvider: what each mutating call returns -/


namespace FillableSigningProvider

theorem AddKeyPubKey_eq (ext : Externals) (self : FillableSigningProvider) (key : CKey)
    (pubkey : CPubKey) :
    self.AddKeyPubKey ext key pubkey
      = some (true, { self with mapKeys := self.mapKeys.assign (ext.GetID pubkey) key }) := by
  have hhave : HaveKey { self with mapKeys := self.mapKeys.assign (ext.GetID pubkey) key }
      (ext.GetID pubkey) = true := by
    rw [HaveKey_iff]
    simp [StdMap.find_assign_self]
  simp only [AddKeyPubKey, ImplicitlyLearnRelatedKeyScripts, hhave, Bool.true_or, if_true]

theorem AddWatchOnly_eq (ext : Externals) (self : FillableSigningProvider) (dest : CScript) :
    self.AddWatchOnly ext dest = some (true,
      match ExtractPubKey ext dest with
      | some pubKey =>
        { self with
          setWatchOnly := self.setWatchOnly.insert dest,
          mapWatchKeys := self.mapWatchKeys.assign (ext.GetID pubKey) pubKey }
      | none => { self with setWatchOnly := self.setWatchOnly.insert dest }) := by
  cases hx : ExtractPubKey ext dest with
  | none => simp only [AddWatchOnly, hx]
  | some pubKey =>
    have hcount : (self.mapWatchKeys.assign (ext.GetID pubKey) pubKey).count
        (ext.GetID pubKey) ≠ 0 := by
      simp [StdMap.count, StdMap.find_assign_self]
    simp only [AddWatchOnly, hx, ImplicitlyLearnRelatedKeyScripts, hcount, ne_eq,
      not_false_eq_true, decide_True, Bool.or_true, if_true]

theorem RemoveWatchOnly_eq (ext : Externals) (self : FillableSigningProvider)
    (dest : CScript) :
    self.RemoveWatchOnly ext dest = (true,
      match ExtractPubKey ext dest with
      | some pubKey =>
        { self with
          setWatchOnly := self.setWatchOnly.erase dest,
          mapWatchKeys := self.mapWatchKeys.erase (ext.GetID pubKey) }
      | none => { self with setWatchOnly := self.setWatchOnly.erase dest }) := by
  cases hx : ExtractPubKey ext dest <;> simp only [RemoveWatchOnly, hx]

theorem HaveKey_congr (s1 s2 : FillableSigningProvider) (address : CKeyID)
    (h : s1.mapKeys.find address = s2.mapKeys.find address) :
    s1.HaveKey address = s2.HaveKey address := by
  simp only [HaveKey, StdMap.count, h]

end FillableSigningProvider

/-! ## FillableSigningProvider: secret keys -/

/-- C11: `AddKeyPubKey` returns true from every state (one that already holds another secret
key under the same identifier included); afterwards `HaveKey` of the identifier of the
public key is true and `GetKey` of it returns the key just added, while `GetKey` and
`HaveKey` of every other identifier answer as before. -/
theorem AddKeyPubKey_stores_key (ext : Externals) (self : FillableSigningProvider)
    (key : CKey) (pubkey : CPubKey) :
    ∃ after : FillableSigningProvider,
      self.AddKeyPubKey ext key pubkey = some (true, after) ∧
      after.HaveKey (ext.GetID pubkey) = true ∧
      after.GetKey (ext.GetID pubkey) = some key ∧
      (∀ address : CKeyID, address ≠ ext.GetID pubkey →
        after.GetKey address = self.GetKey address ∧
        after.HaveKey address = self.HaveKey address) := by
  refine ⟨_, FillableSigningProvider.AddKeyPubKey_eq ext self key pubkey, ?_, ?_,
    fun address hne => ⟨?_, ?_⟩⟩
  · rw [FillableSigningProvider.HaveKey_iff]
    simp [StdMap.find_assign_self]
  · rw [FillableSigningProvider.GetKey_eq_find]
    exact StdMap.find_assign_self _ _ _
  · rw [FillableSigningProvider.GetKey_eq_find, FillableSigningProvider.GetKey_eq_find]
    exact StdMap.find_assign_other _ _ _ _ hne
  · exact FillableSigningProvider.HaveKey_congr _ _ _ (StdMap.find_assign_other _ _ _ _ hne)

/-- C11 at a concrete input: the provider holds the second example key under the identifier
of the example public key; after `AddKeyPubKey` of the first example key with that public
key, `GetKey` returns the first key, and the entry under the identifier 5 is as before. -/
theorem AddKeyPubKey_stores_key_witness :
    exampleHoldingKey2.GetKey (exampleExternals.GetID examplePubKey) = some exampleKey2 ∧
    exampleKey2 ≠ exampleKey1 ∧
    (⟨5⟩ : CKeyID) ≠ exampleExternals.GetID examplePubKey ∧
    ∃ after : FillableSigningProvider,
      exampleHoldingKey2.AddKeyPubKey exampleExternals exampleKey1 examplePubKey
        = some (true, after) ∧
      after.GetKey (exampleExternals.GetID examplePubKey) = some exampleKey1 ∧
      after.GetKey ⟨5⟩ = some exampleKey2 :=
  match AddKeyPubKey_stores_key exampleExternals exampleHoldingKey2 exampleKey1
      examplePubKey with
  | ⟨after, hadd, _, hget, hother⟩ =>
    ⟨by decide, by decide, by decide, after, hadd, hget,
      (hother ⟨5⟩ (by decide)).1.trans (by decide)⟩

/-- C12 (the claim as stated fails): `AddKeyPubKey` stores a secret key that is not valid
without a check; the identifier is then a known secret key, `HaveKey` and `GetKey` find it,
but `GetPubKey` of the identifier returns no public key: it aborts on the assertion of
`key.GetPubKey()`. -/
theorem GetPubKey_aborts_on_invalid_key :
    exampleInvalidKey.fValid = false ∧
    ∃ after : FillableSigningProvider,
      FillableSigningProvider.init.AddKeyPubKey exampleExternals exampleInvalidKey
        examplePubKey = some (true, after) ∧
      after.HaveKey (exampleExternals.GetID examplePubKey) = true ∧
      after.GetKey (exampleExternals.GetID examplePubKey) = some exampleInvalidKey ∧
      FillableSigningProvider.GetPubKey exampleExternals after
        (exampleExternals.GetID examplePubKey) = none :=
  ⟨rfl, ⟨⟨[(exampleExternals.GetID examplePubKey, exampleInvalidKey)]⟩, StdMap.empty,
    StdMap.empty, StdSet.emptySet⟩, by decide, by decide, by decide, by decide⟩

/-- C12 (as amended): `GetPubKey` of an identifier under which a valid secret key is stored
returns the public key derived from that secret key, whatever `mapWatchKeys` holds; when
the stored secret key is not valid it aborts on the assertion of `key.GetPubKey()`; of an
identifier that is not a known secret key it returns the entry of `mapWatchKeys`, found or
not found; and after `AddKeyPubKey key pubkey` with a valid `key` it returns the key
derived from `key` under the identifier of `pubkey`, whether or not that is `pubkey`. -/
theorem GetPubKey_secret_then_watch (ext : Externals) (self : FillableSigningProvider)
    (address : CKeyID) :
    (∀ key : CKey, self.GetKey address = some key → key.fValid = true →
      FillableSigningProvider.GetPubKey ext self address
        = some (some (ext.CKeyGetPubKey key))) ∧
    (∀ key : CKey, self.GetKey address = some key → key.fValid = false →
      FillableSigningProvider.GetPubKey ext self address = none) ∧
    (self.HaveKey address = false →
      FillableSigningProvider.GetPubKey ext self address
        = some (self.mapWatchKeys.find address)) ∧
    (∀ (key : CKey) (pubkey : CPubKey), ext.GetID pubkey = address → key.fValid = true →
      ∃ after : FillableSigningProvider,
        self.AddKeyPubKey ext key pubkey = some (true, after) ∧
        FillableSigningProvider.GetPubKey ext after address
          = some (some (ext.CKeyGetPubKey key))) := by
  refine ⟨fun key hkey hvalid => ?_, fun key hkey hinvalid => ?_, fun hno => ?_,
    fun key pubkey hid hvalid => ?_⟩
  · simp only [FillableSigningProvider.GetPubKey, hkey, CKey.GetPubKey, hvalid, if_true]
  · simp [FillableSigningProvider.GetPubKey, hkey, CKey.GetPubKey, hinvalid]
  · exact FillableSigningProvider.GetPubKey_of_not_HaveKey ext self address hno
  · subst hid
    refine ⟨_, FillableSigningProvider.AddKeyPubKey_eq ext self key pubkey, ?_⟩
    have hget : FillableSigningProvider.GetKey
        { self with mapKeys := self.mapKeys.assign (ext.GetID pubkey) key }
        (ext.GetID pubkey) = some key := by
      rw [FillableSigningProvider.GetKey_eq_find]
      exact StdMap.find_assign_self _ _ _
    simp only [FillableSigningProvider.GetPubKey, hget, CKey.GetPubKey, hvalid, if_true]

/-- C12 (as amended) at a concrete input: a provider holds a valid secret key and a
watch-only key under one identifier; `GetPubKey` returns the key derived from the secret
key, which is neither the watch-only key nor the public key the secret key was added with;
a provider that only watches returns the watch-only key. -/
theorem GetPubKey_secret_then_watch_witness :
    exampleSecretAndWatched.GetKey (exampleExternals.GetID examplePubKey) = some exampleKey1 ∧
    exampleKey1.fValid = true ∧
    exampleSecretAndWatched.mapWatchKeys.find (exampleExternals.GetID examplePubKey)
      = some examplePubKey ∧
    exampleExternals.CKeyGetPubKey exampleKey1 ≠ examplePubKey ∧
    FillableSigningProvider.GetPubKey exampleExternals exampleSecretAndWatched
      (exampleExternals.GetID examplePubKey)
      = some (some (exampleExternals.CKeyGetPubKey exampleKey1)) ∧
    FillableSigningProvider.GetPubKey exampleExternals exampleWatching
      (exampleExternals.GetID examplePubKey) = some (some examplePubKey) :=
  have h1 := GetPubKey_secret_then_watch exampleExternals exampleSecretAndWatched
    (exampleExternals.GetID examplePubKey)
  have h2 := GetPubKey_secret_then_watch exampleExternals exampleWatching
    (exampleExternals.GetID examplePubKey)
  ⟨by decide, rfl, by decide, by decide, h1.1 exampleKey1 (by decide) rfl,
    (h2.2.2.1 (by decide)).trans (by decide)⟩

/-- C15: `GetKeys()` holds exactly the identifiers for which `HaveKey` is true, which are
those for which `GetKey` finds a key; `GetCScripts()` holds exactly the identifiers for
which `HaveCScript` is true, which are those for which `GetCScript` finds a script; and
neither set holds an identifier twice. -/
theorem GetKeys_GetCScripts_enumerate (self : FillableSigningProvider) :
    (∀ address : CKeyID,
      (address ∈ self.GetKeys.elems ↔ self.HaveKey address = true) ∧
      (self.HaveKey address = true ↔ (self.GetKey address).isSome = true)) ∧
    (∀ hash : CScriptID,
      (hash ∈ self.GetCScripts.elems ↔ self.HaveCScript hash = true) ∧
      (self.HaveCScript hash = true ↔ (self.GetCScript hash).isSome = true)) ∧
    self.GetKeys.elems.Nodup ∧ self.GetCScripts.elems.Nodup := by
  refine ⟨fun address => ⟨?_, ?_⟩, fun hash => ⟨?_, ?_⟩, ?_, ?_⟩
  · rw [FillableSigningProvider.HaveKey_iff, StdMap.find, StdMap.findIn_isSome_iff,
      FillableSigningProvider.GetKeys, StdSet.mem_foldl_insert]
    simp [StdSet.emptySet]
  · rw [FillableSigningProvider.HaveKey_iff, FillableSigningProvider.GetKey_eq_find]
  · rw [FillableSigningProvider.HaveCScript_iff, StdMap.find, StdMap.findIn_isSome_iff,
      FillableSigningProvider.GetCScripts, StdSet.mem_foldl_insert]
    simp [StdSet.emptySet]
  · rw [FillableSigningProvider.HaveCScript_iff, FillableSigningProvider.GetCScript_eq_find]
  · exact StdSet.nodup_foldl_insert _ _ _ List.nodup_nil
  · exact StdSet.nodup_foldl_insert _ _ _ List.nodup_nil

/-! ## The destination helper -/

/-- C13: `GetKeyForDestination` returns the identifier built from the hash of a `PKHash`
destination and the null identifier for each other kind of destination, and its result
does not depend on the provider it is given. -/
theorem GetKeyForDestination_only_PKHash (store other : SigningProvider) (hash : uint160) :
    GetKeyForDestination store (CTxDestination.PKHash hash) = CKeyID.mk hash ∧
    GetKeyForDestination store CTxDestination.CNoDestination = CKeyID.mk 0 ∧
    GetKeyForDestination store (CTxDestination.ScriptHash hash) = CKeyID.mk 0 ∧
    (∀ dest : CTxDestination,
      GetKeyForDestination store dest = GetKeyForDestination other dest) :=
  ⟨rfl, rfl, rfl, fun dest => by cases dest <;> rfl⟩

/-! ## The hook `ImplicitlyLearnRelatedKeyScripts` -/

/-- C17: the assertion of `ImplicitlyLearnRelatedKeyScripts` holds at both places it is
called from, for every state and all arguments: in `AddKeyPubKey`, after the key has been
stored, and in `AddWatchOnly`, after the extracted key has been stored; so neither call
aborts. -/
theorem ImplicitlyLearn_assertion_holds (ext : Externals) (self : FillableSigningProvider) :
    (∀ (key : CKey) (pubkey : CPubKey),
      FillableSigningProvider.ImplicitlyLearnRelatedKeyScripts ext
        { self with mapKeys := self.mapKeys.assign (ext.GetID pubkey) key } pubkey
        = some { self with mapKeys := self.mapKeys.assign (ext.GetID pubkey) key } ∧
      (self.AddKeyPubKey ext key pubkey).isSome = true) ∧
    (∀ (dest : CScript),
      (∀ pubKey : CPubKey, ExtractPubKey ext dest = some pubKey →
        FillableSigningProvider.ImplicitlyLearnRelatedKeyScripts ext
          { self with
            setWatchOnly := self.setWatchOnly.insert dest,
            mapWatchKeys := self.mapWatchKeys.assign (ext.GetID pubKey) pubKey } pubKey
          = some { self with
            setWatchOnly := self.setWatchOnly.insert dest,
            mapWatchKeys := self.mapWatchKeys.assign (ext.GetID pubKey) pubKey }) ∧
      (self.AddWatchOnly ext dest).isSome = true) := by
  refine ⟨fun key pubkey => ⟨?_, ?_⟩, fun dest => ⟨fun pubKey _ => ?_, ?_⟩⟩
  · have hhave : FillableSigningProvider.HaveKey
        { self with mapKeys := self.mapKeys.assign (ext.GetID pubkey) key }
        (ext.GetID pubkey) = true := by
      rw [FillableSigningProvider.HaveKey_iff]
      simp [StdMap.find_assign_self]
    simp only [FillableSigningProvider.ImplicitlyLearnRelatedKeyScripts, hhave, Bool.true_or,
      if_true]
  · rw [FillableSigningProvider.AddKeyPubKey_eq]
    rfl
  · have hcount : (self.mapWatchKeys.assign (ext.GetID pubKey) pubKey).count
        (ext.GetID pubKey) ≠ 0 := by
      simp [StdMap.count, StdMap.find_assign_self]
    simp only [FillableSigningProvider.ImplicitlyLearnRelatedKeyScripts, hcount, ne_eq,
      not_false_eq_true, decide_True, Bool.or_true, if_true]
  · rw [FillableSigningProvider.AddWatchOnly_eq]
    rfl

/-- C18: `AddKeyPubKey` leaves `mapScripts`, `setWatchOnly` and `mapWatchKeys` as they
were; `AddWatchOnly` and `RemoveWatchOnly` leave `mapKeys` and `mapScripts` as they were;
`AddCScript` leaves `mapKeys`, `mapWatchKeys` and `setWatchOnly` as they were; and the hook
`ImplicitlyLearnRelatedKeyScripts`, when its assertion holds, leaves the whole state as it
was. -/
theorem mutations_touch_own_part_only (ext : Externals) (self : FillableSigningProvider) :
    (∀ (pubkey : CPubKey) (after : FillableSigningProvider),
      self.ImplicitlyLearnRelatedKeyScripts ext pubkey = some after → after = self) ∧
    (∀ (key : CKey) (pubkey : CPubKey), ∃ after : FillableSigningProvider,
      self.AddKeyPubKey ext key pubkey = some (true, after) ∧
      after.mapScripts = self.mapScripts ∧ after.setWatchOnly = self.setWatchOnly ∧
      after.mapWatchKeys = self.mapWatchKeys) ∧
    (∀ dest : CScript, ∃ after : FillableSigningProvider,
      self.AddWatchOnly ext dest = some (true, after) ∧
      after.mapKeys = self.mapKeys ∧ after.mapScripts = self.mapScripts) ∧
    (∀ dest : CScript,
      (self.RemoveWatchOnly ext dest).2.mapKeys = self.mapKeys ∧
      (self.RemoveWatchOnly ext dest).2.mapScripts = self.mapScripts) ∧
    (∀ redeemScript : CScript,
      (self.AddCScript ext redeemScript).2.mapKeys = self.mapKeys ∧
      (self.AddCScript ext redeemScript).2.mapWatchKeys = self.mapWatchKeys ∧
      (self.AddCScript ext redeemScript).2.setWatchOnly = self.setWatchOnly) := by
  refine ⟨fun pubkey after h => ?_, fun key pubkey => ?_, fun dest => ?_, fun dest => ?_,
    fun redeemScript => ?_⟩
  · simp only [FillableSigningProvider.ImplicitlyLearnRelatedKeyScripts] at h
    split at h
    · exact (Option.some.inj h).symm
    · exact absurd h (by simp)
  · exact ⟨_, FillableSigningProvider.AddKeyPubKey_eq ext self key pubkey, rfl, rfl, rfl⟩
  · refine ⟨_, FillableSigningProvider.AddWatchOnly_eq ext self dest, ?_, ?_⟩ <;>
      cases ExtractPubKey ext dest <;> rfl
  · rw [FillableSigningProvider.RemoveWatchOnly_eq]
    cases ExtractPubKey ext dest <;> exact ⟨rfl, rfl⟩
  · unfold FillableSigningProvider.AddCScript
    split <;> exact ⟨rfl, rfl, rfl⟩

/-- C18 at a concrete input: a provider that watches the example script and holds the
example watch-only key is told to add a secret key; its watch-only set, watch-only key map
and script map are as before, and the hook leaves the state it is called in. -/
theorem mutations_touch_own_part_only_witness :
    exampleWatching.ImplicitlyLearnRelatedKeyScripts exampleExternals examplePubKey
      = some exampleWatching ∧
    ∃ after : FillableSigningProvider,
      exampleWatching.AddKeyPubKey exampleExternals exampleKey1 examplePubKey
        = some (true, after) ∧
      after.mapScripts = exampleWatching.mapScripts ∧
      after.setWatchOnly = exampleWatching.setWatchOnly ∧
      after.mapWatchKeys = exampleWatching.mapWatchKeys :=
  have h := mutations_touch_own_part_only exampleExternals exampleWatching
  have hhook : exampleWatching.ImplicitlyLearnRelatedKeyScripts exampleExternals examplePubKey
      = some exampleWatching := by decide
  ⟨(h.1 examplePubKey exampleWatching hhook) ▸ hhook, h.2.1 exampleKey1 examplePubKey⟩

/-! ## Secret keys and scripts are never removed -/


namespace FillableSigningProvider

theorem call_keeps_keys_and_scripts (ext : Externals) (self : FillableSigningProvider)
    (op : FillableOp) :
    ∃ after : FillableSigningProvider, self.call ext op = some after ∧
      (∀ address : CKeyID, self.HaveKey address = true → after.HaveKey address = true) ∧
      (∀ hash : CScriptID, self.HaveCScript hash = true → after.HaveCScript hash = true) := by
  cases op with
  | AddKeyPubKey key pubkey =>
    refine ⟨{ self with mapKeys := self.mapKeys.assign (ext.GetID pubkey) key }, ?_, ?_, ?_⟩
    · simp only [call, AddKeyPubKey_eq]
    · intro address h
      by_cases hid : address = ext.GetID pubkey
      · subst hid
        rw [HaveKey_iff]
        simp [StdMap.find_assign_self]
      · rw [← h]
        exact HaveKey_congr _ _ _ (StdMap.find_assign_other _ _ _ _ hid)
    · exact fun hash h => h
  | AddCScript redeemScript =>
    refine ⟨(self.AddCScript ext redeemScript).2, rfl, ?_, ?_⟩
    · intro address h
      unfold AddCScript
      split <;> exact h
    · intro hash h
      unfold AddCScript
      split
      · exact h
      · by_cases hid : hash = ext.ScriptID redeemScript
        · subst hid
          rw [HaveCScript_iff]
          simp [StdMap.find_assign_self]
        · rw [← h]
          exact HaveCScript_congr _ _ _ (StdMap.find_assign_other _ _ _ _ hid)
  | AddWatchOnly dest =>
    have heq := AddWatchOnly_eq ext self dest
    cases hx : ExtractPubKey ext dest with
    | none =>
      rw [hx] at heq
      exact ⟨{ self with setWatchOnly := self.setWatchOnly.insert dest },
        by simp only [call, heq], fun _ h => h, fun _ h => h⟩
    | some pubKey =>
      rw [hx] at heq
      exact ⟨{ self with
          setWatchOnly := self.setWatchOnly.insert dest,
          mapWatchKeys := self.mapWatchKeys.assign (ext.GetID pubKey) pubKey },
        by simp only [call, heq], fun _ h => h, fun _ h => h⟩
  | RemoveWatchOnly dest =>
    refine ⟨(self.RemoveWatchOnly ext dest).2, rfl, ?_, ?_⟩ <;>
      rw [RemoveWatchOnly_eq] <;> cases ExtractPubKey ext dest <;> exact fun _ h => h

theorem calls_keep_keys_and_scripts (ext : Externals) (ops : List FillableOp)
    (self : FillableSigningProvider) :
    ∃ after : FillableSigningProvider, self.calls ext ops = some after ∧
      (∀ address : CKeyID, self.HaveKey address = true → after.HaveKey address = true) ∧
      (∀ hash : CScriptID, self.HaveCScript hash = true → after.HaveCScript hash = true) := by
  induction ops generalizing self with
  | nil => exact ⟨self, rfl, fun _ h => h, fun _ h => h⟩
  | cons op rest ih =>
    obtain ⟨next, hcall, hk, hs⟩ := call_keeps_keys_and_scripts ext self op
    obtain ⟨after, hrest, hk2, hs2⟩ := ih next
    refine ⟨after, ?_, fun a h => hk2 a (hk a h), fun a h => hs2 a (hs a h)⟩
    simp only [calls, hcall, hrest]

end FillableSigningProvider

/-- C14: each of the four mutating calls, with any arguments, returns (it does not abort)
and leaves `HaveKey` true for every identifier for which it was true, and `HaveCScript`
true for every identifier for which it was true; and so does every finite sequence of such
calls. -/
theorem keys_and_scripts_never_removed (ext : Externals) (self : FillableSigningProvider) :
    (∀ op : FillableOp, ∃ after : FillableSigningProvider,
      self.call ext op = some after ∧
      (∀ address : CKeyID, self.HaveKey address = true → after.HaveKey address = true) ∧
      (∀ hash : CScriptID, self.HaveCScript hash = true → after.HaveCScript hash = true)) ∧
    (∀ ops : List FillableOp, ∃ after : FillableSigningProvider,
      self.calls ext ops = some after ∧
      (∀ address : CKeyID, self.HaveKey address = true → after.HaveKey address = true) ∧
      (∀ hash : CScriptID, self.HaveCScript hash = true → after.HaveCScript hash = true)) :=
  ⟨fun op => FillableSigningProvider.call_keeps_keys_and_scripts ext self op,
    fun ops => FillableSigningProvider.calls_keep_keys_and_scripts ext ops self⟩

/-- C14 at a concrete input: a provider holds a secret key under the identifier 5; after a
sequence of four calls, one of each kind, it still does. -/
theorem keys_and_scripts_never_removed_witness :
    exampleHoldingKey2.HaveKey ⟨5⟩ = true ∧
    ∃ after : FillableSigningProvider,
      exampleHoldingKey2.calls exampleExternals
        [FillableOp.AddWatchOnly exampleP2PK, FillableOp.RemoveWatchOnly exampleP2PK,
          FillableOp.AddCScript [0x51],
          FillableOp.AddKeyPubKey exampleKey1 examplePubKey] = some after ∧
      after.HaveKey ⟨5⟩ = true :=
  match (keys_and_scripts_never_removed exampleExternals exampleHoldingKey2).2
      [FillableOp.AddWatchOnly exampleP2PK, FillableOp.RemoveWatchOnly exampleP2PK,
        FillableOp.AddCScript [0x51],
        FillableOp.AddKeyPubKey exampleKey1 examplePubKey] with
  | ⟨after, hcalls, hkeys, _⟩ => ⟨by decide, after, hcalls, hkeys ⟨5⟩ (by decide)⟩

/-- C17 at a concrete input: the empty provider is told to watch the example pay-to-pubkey
script, from which the example key is extracted; the assertion of the hook holds in the
state the hook is called in, and the call returns. -/
theorem ImplicitlyLearn_assertion_holds_witness :
    ExtractPubKey exampleExternals exampleP2PK = some examplePubKey ∧
    FillableSigningProvider.ImplicitlyLearnRelatedKeyScripts exampleExternals
      { FillableSigningProvider.init with
        setWatchOnly := FillableSigningProvider.init.setWatchOnly.insert exampleP2PK,
        mapWatchKeys := FillableSigningProvider.init.mapWatchKeys.assign
          (exampleExternals.GetID examplePubKey) examplePubKey } examplePubKey
      = some { FillableSigningProvider.init with
        setWatchOnly := FillableSigningProvider.init.setWatchOnly.insert exampleP2PK,
        mapWatchKeys := FillableSigningProvider.init.mapWatchKeys.assign
          (exampleExternals.GetID examplePubKey) examplePubKey } ∧
    (FillableSigningProvider.init.AddWatchOnly exampleExternals exampleP2PK).isSome = true ∧
    (FillableSigningProvider.init.AddKeyPubKey exampleExternals exampleKey1
      examplePubKey).isSome = true :=
  have h := ImplicitlyLearn_assertion_holds exampleExternals FillableSigningProvider.init
  have hx : ExtractPubKey exampleExternals exampleP2PK = some examplePubKey := by decide
  ⟨hx, (h.2 exampleP2PK).1 examplePubKey hx, (h.2 exampleP2PK).2,
    (h.1 exampleKey1 examplePubKey).2⟩

/-! ## The watch-only key map and the watch-only set -/

namespace FillableSigningProvider

theorem call_keeps_WatchKeysFromWatched (ext : Externals) (self after : FillableSigningProvider)
    (op : FillableOp) (hinv : self.WatchKeysFromWatched ext)
    (hcall : self.call ext op = some after) : after.WatchKeysFromWatched ext := by
  cases op with
  | AddKeyPubKey key pubkey =>
    simp only [call, AddKeyPubKey_eq, Option.some.injEq] at hcall
    subst hcall
    exact hinv
  | AddCScript redeemScript =>
    simp only [call, Option.some.injEq] at hcall
    subst hcall
    unfold AddCScript
    split <;> exact hinv
  | AddWatchOnly dest =>
    simp only [call, AddWatchOnly_eq, Option.some.injEq] at hcall
    subst hcall
    cases hx : ExtractPubKey ext dest with
    | none =>
      intro id P hfind
      obtain ⟨d, hd, hex, hid⟩ := hinv id P hfind
      exact ⟨d, (StdSet.mem_insert _ _ _).mpr (Or.inr hd), hex, hid⟩
    | some Q =>
      intro id P hfind
      by_cases hidq : id = ext.GetID Q
      · subst hidq
        have hPQ : Q = P := by
          have h2 : (self.mapWatchKeys.assign (ext.GetID Q) Q).find (ext.GetID Q) = some P :=
            hfind
          rw [StdMap.find_assign_self] at h2
          exact Option.some.inj h2
        subst hPQ
        exact ⟨dest, (StdSet.mem_insert _ _ _).mpr (Or.inl rfl), hx, rfl⟩
      · have h2 : (self.mapWatchKeys.assign (ext.GetID Q) Q).find id = some P := hfind
        rw [StdMap.find_assign_other _ _ _ _ hidq] at h2
        obtain ⟨d, hd, hex, hid⟩ := hinv id P h2
        exact ⟨d, (StdSet.mem_insert _ _ _).mpr (Or.inr hd), hex, hid⟩
  | RemoveWatchOnly dest =>
    simp only [call, RemoveWatchOnly_eq, Option.some.injEq] at hcall
    subst hcall
    cases hx : ExtractPubKey ext dest with
    | none =>
      intro id P hfind
      obtain ⟨d, hd, hex, hid⟩ := hinv id P hfind
      have hne : d ≠ dest := fun heq => by
        rw [heq, hx] at hex
        exact absurd hex (by simp)
      exact ⟨d, (StdSet.mem_erase _ _ _).mpr ⟨hne, hd⟩, hex, hid⟩
    | some Q =>
      intro id P hfind
      have h2 : (self.mapWatchKeys.erase (ext.GetID Q)).find id = some P := hfind
      have hidq : id ≠ ext.GetID Q := fun heq => by
        rw [heq, StdMap.find_erase_self] at h2
        exact absurd h2 (by simp)
      rw [StdMap.find_erase_other _ _ _ hidq] at h2
      obtain ⟨d, hd, hex, hid⟩ := hinv id P h2
      have hne : d ≠ dest := fun heq => by
        rw [heq, hx] at hex
        have hQP : Q = P := Option.some.inj hex
        exact hidq (by rw [← hid, hQP])
      exact ⟨d, (StdSet.mem_erase _ _ _).mpr ⟨hne, hd⟩, hex, hid⟩

theorem call_keeps_WatchedKeysStored (ext : Externals) (scripts : List CScript)
    (hone : OneScriptPerKey ext scripts) (self after : FillableSigningProvider)
    (op : FillableOp) (hop : ∀ d ∈ watchScripts [op], d ∈ scripts)
    (hset : ∀ d ∈ self.setWatchOnly.elems, d ∈ scripts)
    (hinv : self.WatchedKeysStored ext) (hcall : self.call ext op = some after) :
    (∀ d ∈ after.setWatchOnly.elems, d ∈ scripts) ∧ after.WatchedKeysStored ext := by
  cases op with
  | AddKeyPubKey key pubkey =>
    simp only [call, AddKeyPubKey_eq, Option.some.injEq] at hcall
    subst hcall
    exact ⟨hset, hinv⟩
  | AddCScript redeemScript =>
    simp only [call, Option.some.injEq] at hcall
    subst hcall
    unfold AddCScript
    split <;> exact ⟨hset, hinv⟩
  | AddWatchOnly dest =>
    have hdest : dest ∈ scripts := hop dest (by simp [watchScripts])
    simp only [call, AddWatchOnly_eq, Option.some.injEq] at hcall
    subst hcall
    cases hx : ExtractPubKey ext dest with
    | none =>
      refine ⟨fun d hd => ?_, fun d hd P hex => ?_⟩
      · rcases (StdSet.mem_insert _ _ _).mp hd with rfl | h
        · exact hdest
        · exact hset d h
      · rcases (StdSet.mem_insert _ _ _).mp hd with rfl | h
        · rw [hx] at hex
          exact absurd hex (by simp)
        · exact hinv d h P hex
    | some Q =>
      refine ⟨fun d hd => ?_, fun d hd P hex => ?_⟩
      · rcases (StdSet.mem_insert _ _ _).mp hd with rfl | h
        · exact hdest
        · exact hset d h
      · have hdin : d ∈ scripts := by
          rcases (StdSet.mem_insert _ _ _).mp hd with rfl | h
          · exact hdest
          · exact hset d h
        show (self.mapWatchKeys.assign (ext.GetID Q) Q).find (ext.GetID P) = some P
        by_cases hid : ext.GetID P = ext.GetID Q
        · have hdd : d = dest := hone d hdin dest hdest P Q hex hx hid
          subst hdd
          have hPQ : Q = P := Option.some.inj (hx.symm.trans hex)
          subst hPQ
          exact StdMap.find_assign_self _ _ _
        · rw [StdMap.find_assign_other _ _ _ _ hid]
          rcases (StdSet.mem_insert _ _ _).mp hd with rfl | h
          · have hPQ : Q = P := Option.some.inj (hx.symm.trans hex)
            exact absurd (by rw [hPQ]) hid
          · exact hinv d h P hex
  | RemoveWatchOnly dest =>
    have hdest : dest ∈ scripts := hop dest (by simp [watchScripts])
    simp only [call, RemoveWatchOnly_eq, Option.some.injEq] at hcall
    subst hcall
    cases hx : ExtractPubKey ext dest with
    | none =>
      refine ⟨fun d hd => hset d ((StdSet.mem_erase _ _ _).mp hd).2, fun d hd P hex => ?_⟩
      exact hinv d ((StdSet.mem_erase _ _ _).mp hd).2 P hex
    | some Q =>
      refine ⟨fun d hd => hset d ((StdSet.mem_erase _ _ _).mp hd).2, fun d hd P hex => ?_⟩
      obtain ⟨hne, hold⟩ := (StdSet.mem_erase _ _ _).mp hd
      show (self.mapWatchKeys.erase (ext.GetID Q)).find (ext.GetID P) = some P
      have hid : ext.GetID P ≠ ext.GetID Q := fun heq =>
        hne (hone d (hset d hold) dest hdest P Q hex hx heq)
      rw [StdMap.find_erase_other _ _ _ hid]
      exact hinv d hold P hex

theorem watchScripts_cons_subset (op : FillableOp) (rest : List FillableOp)
    (scripts : List CScript) (h : ∀ d ∈ watchScripts (op :: rest), d ∈ scripts) :
    (∀ d ∈ watchScripts [op], d ∈ scripts) ∧ (∀ d ∈ watchScripts rest, d ∈ scripts) := by
  cases op <;> simp_all [watchScripts]

theorem calls_keep_watch_invariants (ext : Externals) (scripts : List CScript)
    (ops : List FillableOp) (self : FillableSigningProvider)
    (hfrom : self.WatchKeysFromWatched ext) :
    ∃ after : FillableSigningProvider, self.calls ext ops = some after ∧
      after.WatchKeysFromWatched ext ∧
      (OneScriptPerKey ext scripts → (∀ d ∈ watchScripts ops, d ∈ scripts) →
        (∀ d ∈ self.setWatchOnly.elems, d ∈ scripts) → self.WatchedKeysStored ext →
          after.WatchedKeysStored ext) := by
  induction ops generalizing self with
  | nil => exact ⟨self, rfl, hfrom, fun _ _ _ h => h⟩
  | cons op rest ih =>
    obtain ⟨next, hcall, _, _⟩ := call_keeps_keys_and_scripts ext self op
    obtain ⟨after, hrest, hfrom2, hstored2⟩ :=
      ih next (call_keeps_WatchKeysFromWatched ext self next op hfrom hcall)
    refine ⟨after, by simp only [calls, hcall, hrest], hfrom2, fun hone hops hset hinv => ?_⟩
    obtain ⟨hop1, hops2⟩ := watchScripts_cons_subset op rest scripts hops
    obtain ⟨hset2, hinv2⟩ :=
      call_keeps_WatchedKeysStored ext scripts hone self next op hop1 hset hinv hcall
    exact hstored2 hone hops2 hset2 hinv2

end FillableSigningProvider

/-- The loss of a watched key does not depend on the external functions: whenever the
example key passes `IsFullyValid`, the three example calls leave the second script watched,
with the example key extracted from it, and nothing stored under the identifier of that
key. -/
theorem watched_key_lost_for_all_externals (ext : Externals)
    (hvalid : ext.IsFullyValid examplePubKey = true) :
    ∃ after : FillableSigningProvider,
      FillableSigningProvider.init.calls ext exampleOpsLosingKey = some after ∧
      exampleP2PKLong ∈ after.setWatchOnly.elems ∧
      ExtractPubKey ext exampleP2PKLong = some examplePubKey ∧
      after.mapWatchKeys.find (ext.GetID examplePubKey) = none := by
  have hA : ExtractPubKey ext exampleP2PK = some examplePubKey :=
    (ExtractPubKey_eq_some_iff ext exampleP2PK examplePubKey).mpr
      ⟨34, 33, examplePubKey.vch, 35, [], by decide, by decide, rfl, hvalid, by decide,
        by decide⟩
  have hB : ExtractPubKey ext exampleP2PKLong = some examplePubKey :=
    (ExtractPubKey_eq_some_iff ext exampleP2PKLong examplePubKey).mpr
      ⟨35, OP_PUSHDATA1, examplePubKey.vch, 36, [], by decide, by decide, rfl, hvalid,
        by decide, by decide⟩
  refine ⟨FillableSigningProvider.mk StdMap.empty
      ((((StdMap.empty : StdMap CKeyID CPubKey).assign
        (ext.GetID examplePubKey) examplePubKey).assign
        (ext.GetID examplePubKey) examplePubKey).erase (ext.GetID examplePubKey))
      StdMap.empty
      ((((StdSet.emptySet : StdSet CScript).insert exampleP2PK).insert
        exampleP2PKLong).erase exampleP2PK), ?_, ?_, hB, ?_⟩
  · simp only [exampleOpsLosingKey, FillableSigningProvider.calls, FillableSigningProvider.call,
      FillableSigningProvider.AddWatchOnly_eq, FillableSigningProvider.RemoveWatchOnly_eq,
      hA, hB]
    rfl
  · exact (StdSet.mem_erase _ _ _).mpr ⟨by decide,
      (StdSet.mem_insert _ _ _).mpr (Or.inl rfl)⟩
  · exact StdMap.find_erase_self _ _

/-- C19 (the claim as stated fails): from the empty provider, watching the example
pay-to-pubkey script, watching a second script that pushes the same key with
`OP_PUSHDATA1`, and then removing the first leaves the second script watched, and
`ExtractPubKey` extracts the example key from it, but `mapWatchKeys` holds nothing under
the identifier of that key. -/
theorem watched_key_lost :
    ∃ after : FillableSigningProvider,
      FillableSigningProvider.init.calls exampleExternals exampleOpsLosingKey = some after ∧
      exampleP2PKLong ∈ after.setWatchOnly.elems ∧
      ExtractPubKey exampleExternals exampleP2PKLong = some examplePubKey ∧
      after.mapWatchKeys.find (exampleExternals.GetID examplePubKey) = none ∧
      ¬ after.WatchedKeysStored exampleExternals := by
  refine ⟨⟨StdMap.empty, StdMap.empty, StdMap.empty, ⟨[exampleP2PKLong]⟩⟩, by decide,
    by decide, by decide, by decide, fun h => ?_⟩
  have := h exampleP2PKLong (by decide) examplePubKey (by decide)
  exact absurd this (by decide)

/-- C19 (as amended): every finite sequence of the four mutating calls runs from the empty
provider without aborting, and in the state it leaves every entry of `mapWatchKeys` is the
key extracted from some script in `setWatchOnly`, stored under the identifier of the key;
and when no two different scripts given to the watch-only calls of the sequence yield keys
with the same identifier, every script in `setWatchOnly` from which a key is extracted has
that key stored under its identifier in `mapWatchKeys`. -/
theorem watch_key_map_consistency (ext : Externals) (ops : List FillableOp) :
    ∃ after : FillableSigningProvider,
      FillableSigningProvider.init.calls ext ops = some after ∧
      after.WatchKeysFromWatched ext ∧
      (OneScriptPerKey ext (watchScripts ops) → after.WatchedKeysStored ext) := by
  obtain ⟨after, hcalls, hfrom, hstored⟩ :=
    FillableSigningProvider.calls_keep_watch_invariants ext (watchScripts ops) ops
      FillableSigningProvider.init (fun id P h => absurd h (by simp [FillableSigningProvider.init, StdMap.find, StdMap.empty, StdMap.findIn]))
  refine ⟨after, hcalls, hfrom, fun hone => hstored hone (fun d h => h) ?_ ?_⟩
  · intro d hd
    exact absurd hd (by simp [FillableSigningProvider.init, StdSet.emptySet])
  · intro d hd
    exact absurd hd (by simp [FillableSigningProvider.init, StdSet.emptySet])

/-- C19 (as amended) at a concrete input: the watch-only calls of the example sequence are
made with the example script and a script with no key; after the sequence the example
script is watched and its key is stored under its identifier. -/
theorem watch_key_map_consistency_witness :
    OneScriptPerKey exampleExternals (watchScripts exampleOpsOneScript) ∧
    ∃ after : FillableSigningProvider,
      FillableSigningProvider.init.calls exampleExternals exampleOpsOneScript = some after ∧
      exampleP2PK ∈ after.setWatchOnly.elems ∧
      after.mapWatchKeys.find (exampleExternals.GetID examplePubKey) = some examplePubKey :=
  have hone : OneScriptPerKey exampleExternals (watchScripts exampleOpsOneScript) := by
    intro d1 h1 d2 h2 P1 P2 e1 e2 _
    have hnone : ExtractPubKey exampleExternals [0x51] = none := by decide
    have hscripts : watchScripts exampleOpsOneScript = [[0x51], exampleP2PK, [0x51]] := rfl
    rw [hscripts] at h1 h2
    simp only [List.mem_cons, List.mem_singleton, List.not_mem_nil, or_false] at h1 h2
    rcases h1 with rfl | rfl | rfl
    · rw [hnone] at e1; exact absurd e1 (by simp)
    · rcases h2 with rfl | rfl | rfl
      · rw [hnone] at e2; exact absurd e2 (by simp)
      · rfl
      · rw [hnone] at e2; exact absurd e2 (by simp)
    · rw [hnone] at e1; exact absurd e1 (by simp)
  match watch_key_map_consistency exampleExternals exampleOpsOneScript with
  | ⟨after, hcalls, _, hstored⟩ =>
    have hmem : exampleP2PK ∈ after.setWatchOnly.elems := by
      have hafter : FillableSigningProvider.init.calls exampleExternals exampleOpsOneScript
          = some ⟨⟨[(exampleExternals.GetID examplePubKey, exampleKey1)]⟩,
              ⟨[(exampleExternals.GetID examplePubKey, examplePubKey)]⟩, StdMap.empty,
              ⟨[exampleP2PK]⟩⟩ := by decide
      rw [hafter] at hcalls
      rw [← Option.some.inj hcalls]
      decide
    ⟨hone, after, hcalls, hmem, hstored hone exampleP2PK hmem examplePubKey (by decide)⟩

/-! ## The algebra of Merge -/


namespace StdMap
variable {K V : Type} [DecidableEq K]

theorem findIn_isSome_iff_mem_keys (k : K) (l : List (K × V)) :
    (findIn k l).isSome = true ↔ k ∈ l.map Prod.fst := by
  induction l with
  | nil => simp [findIn]
  | cons e rest ih =>
    by_cases h : e.1 = k
    · simp [findIn, h]
    · simp only [findIn, if_neg h, ih, List.map_cons, List.mem_cons]
      constructor
      · exact fun hm => Or.inr hm
      · rintro (heq | hm)
        · exact absurd heq.symm h
        · exact hm

theorem insertRange_append (m : StdMap K V) (x y : List (K × V)) :
    m.insertRange (x ++ y) = (m.insertRange x).insertRange y := by
  simp only [insertRange, List.foldl_append]

theorem insert_of_isSome (m : StdMap K V) (e : K × V) (h : (m.find e.1).isSome = true) :
    m.insert e = m := by
  unfold insert
  rw [if_pos h]

theorem insert_of_not_isSome (m : StdMap K V) (e : K × V) (h : ¬ (m.find e.1).isSome = true) :
    m.insert e = ⟨m.entries ++ [e]⟩ := by
  unfold insert
  rw [if_neg h]

theorem find_isSome_insertRange_left (m : StdMap K V) (range : List (K × V)) (k : K)
    (h : (m.find k).isSome = true) : ((m.insertRange range).find k).isSome = true := by
  rw [find_insertRange]
  cases hk : m.find k with
  | none => rw [hk] at h; exact absurd h (by simp)
  | some v => rfl

/-- Range insert is associative. -/
theorem insertRange_assoc (m : StdMap K V) (c : List (K × V)) (b : List (K × V)) :
    m.insertRange ((StdMap.mk b).insertRange c).entries = (m.insertRange b).insertRange c := by
  induction c generalizing b with
  | nil => rfl
  | cons e rest ih =>
    have step1 : (StdMap.mk b).insertRange (e :: rest)
        = ((StdMap.mk b).insert e).insertRange rest := rfl
    have step2 : (m.insertRange b).insertRange (e :: rest)
        = ((m.insertRange b).insert e).insertRange rest := rfl
    rw [step1, step2]
    by_cases hb : ((StdMap.mk b).find e.1).isSome = true
    · rw [insert_of_isSome _ _ hb, ih b]
      have hmb : ((m.insertRange b).find e.1).isSome = true := by
        rw [find_insertRange]
        cases hm : m.find e.1 with
        | some v => rfl
        | none => exact hb
      rw [insert_of_isSome _ _ hmb]
    · rw [insert_of_not_isSome _ _ hb, ih (b ++ [e]), insertRange_append]
      rfl

theorem insertRange_insertRange (m b : StdMap K V) (c : List (K × V)) :
    m.insertRange (b.insertRange c).entries = (m.insertRange b.entries).insertRange c :=
  insertRange_assoc m c b.entries

theorem insertRange_of_all_present (m : StdMap K V) (range : List (K × V))
    (h : ∀ e ∈ range, (m.find e.1).isSome = true) : m.insertRange range = m := by
  induction range with
  | nil => rfl
  | cons e rest ih =>
    have step : m.insertRange (e :: rest) = (m.insert e).insertRange rest := rfl
    rw [step, insert_of_isSome _ _ (h e (List.mem_cons_self _ _))]
    exact ih (fun e2 he2 => h e2 (List.mem_cons_of_mem _ he2))

theorem insertRange_self (m : StdMap K V) : m.insertRange m.entries = m := by
  apply insertRange_of_all_present
  intro e he
  rw [find, findIn_isSome_iff_mem_keys]
  exact List.mem_map_of_mem _ he

theorem insertRange_unique (p range : List (K × V))
    (h : ((p ++ range).map Prod.fst).Nodup) :
    (StdMap.mk p).insertRange range = ⟨p ++ range⟩ := by
  induction range generalizing p with
  | nil => simp [insertRange]
  | cons e rest ih =>
    have step : (StdMap.mk p).insertRange (e :: rest)
        = ((StdMap.mk p).insert e).insertRange rest := rfl
    have hnot : ¬ ((StdMap.mk p).find e.1).isSome = true := by
      rw [find, findIn_isSome_iff_mem_keys]
      intro hmem
      rw [List.map_append, List.map_cons] at h
      have := (List.nodup_append.mp h).2.2
      exact this hmem (List.mem_cons_self _ _)
    rw [step, insert_of_not_isSome _ _ hnot]
    have h2 : (((p ++ [e]) ++ rest).map Prod.fst).Nodup := by simpa using h
    rw [ih (p ++ [e]) h2]
    simp

theorem empty_insertRange (m : StdMap K V) (h : m.UniqueKeys) :
    (StdMap.empty : StdMap K V).insertRange m.entries = m := by
  have := insertRange_unique ([] : List (K × V)) m.entries (by simpa using h)
  simpa [empty] using this

end StdMap

/-- C20: `Merge` is associative, `Merge a a` is `a`, and merging with the empty provider on
the right returns `a`; merging with the empty provider on the left returns a provider with
the same four lookups as `a`, and returns `a` itself when the keys of each map of `a` are
pairwise different, as the keys of a `std::map` are. -/
theorem Merge_algebra (a b c : FlatSigningProvider) :
    Merge (Merge a b) c = Merge a (Merge b c) ∧
    Merge a a = a ∧
    Merge a FlatSigningProvider.init = a ∧
    (∀ (scriptid : CScriptID) (keyid : CKeyID),
      (Merge FlatSigningProvider.init a).GetCScript scriptid = a.GetCScript scriptid ∧
      (Merge FlatSigningProvider.init a).GetPubKey keyid = a.GetPubKey keyid ∧
      (Merge FlatSigningProvider.init a).GetKey keyid = a.GetKey keyid ∧
      (Merge FlatSigningProvider.init a).GetKeyOrigin keyid = a.GetKeyOrigin keyid) ∧
    (a.UniqueKeys → Merge FlatSigningProvider.init a = a) := by
  refine ⟨?_, ?_, ?_, fun scriptid keyid => ⟨?_, ?_, ?_, ?_⟩, ?_⟩
  · simp only [Merge, StdMap.insertRange_insertRange]
  · simp only [Merge, StdMap.insertRange_self]
  · rfl
  · rw [Merge_GetCScript]; rfl
  · rw [Merge_GetPubKey]; rfl
  · rw [Merge_GetKey]; rfl
  · rw [Merge_GetKeyOrigin]; rfl
  · rintro ⟨h1, h2, h3, h4⟩
    simp only [Merge, FlatSigningProvider.init, StdMap.empty_insertRange _ h1,
      StdMap.empty_insertRange _ h2, StdMap.empty_insertRange _ h3,
      StdMap.empty_insertRange _ h4]

/-- C20 at a concrete input: the second example provider has pairwise different keys in each
map, and merging the empty provider with it returns it; merging the two example providers
with a third in either grouping gives the same provider. -/
theorem Merge_algebra_witness :
    exampleFlatB.UniqueKeys ∧
    Merge FlatSigningProvider.init exampleFlatB = exampleFlatB ∧
    Merge (Merge exampleFlatA exampleFlatB) exampleFlatA
      = Merge exampleFlatA (Merge exampleFlatB exampleFlatA) :=
  have hu : exampleFlatB.UniqueKeys := by
    simp only [FlatSigningProvider.UniqueKeys, StdMap.UniqueKeys]
    decide
  have h := Merge_algebra exampleFlatB exampleFlatA exampleFlatB
  have h2 := Merge_algebra exampleFlatA exampleFlatB exampleFlatA
  ⟨hu, h.2.2.2.2 hu, h2.1⟩
